import Mathlib

/-!
# near-validation: shallow embedding and verification

A shallow embedding of `src/index.ts` of the `near-validation` repository:
zod-based parsing of human-friendly gas / NEAR-token quantity strings into
canonical big integers, plausibility warnings for raw big-int inputs, and
formatting / tier-conversion utilities.

The source is TypeScript running on an ECMAScript engine, so the embedding
models:
* JS strings as lists of code points (`List ℕ`); every character the unit
  grammar can distinguish lies in the Basic Multilingual Plane, where UTF-16
  units and code points coincide;
* JS `number` as an IEEE-754 binary64 value (`JNum`): a finite value is a
  canonical mantissa/exponent pair, and infinities and NaN are explicit
  constructors.  All arithmetic is executable over ℕ/ℤ; the exact rational
  value of a finite double (`JNum.val`) is used only in proofs;
* binary64 round-to-nearest-even (`roundPos` / `roundRat`) executably;
* JS `BigInt` as ℤ.
-/

set_option maxRecDepth 8000

namespace NearValidation

/-! ## Code points -/

/-- Code points of a string literal. -/
def jstr (s : String) : List ℕ := s.data.map Char.toNat

/-- JS `\d` (ASCII digits only). -/
def isDigitC (c : ℕ) : Bool := decide (48 ≤ c ∧ c ≤ 57)

/-- JS `\s`: the ECMAScript WhiteSpace and LineTerminator code points. -/
def isSpaceC (c : ℕ) : Bool :=
  decide (c = 9 ∨ c = 10 ∨ c = 11 ∨ c = 12 ∨ c = 13 ∨ c = 32 ∨ c = 160 ∨
    c = 0x1680 ∨ (0x2000 ≤ c ∧ c ≤ 0x200A) ∨ c = 0x2028 ∨ c = 0x2029 ∨
    c = 0x202F ∨ c = 0x205F ∨ c = 0x3000 ∨ c = 0xFEFF)

/-- ECMAScript `Canonicalize` for case-insensitive (non-`u`-flag) regex
matching, restricted to the code points that can interact with the unit
grammars of this program: ASCII letters uppercase as usual, and the Greek
small mu U+03BC together with the micro sign U+00B5 both uppercase to the
Greek capital mu U+039C (all are ≥ 128, so the ASCII-boundary rule of
`Canonicalize` does not block them).  All other code points are left fixed;
by that ASCII-boundary rule no code point outside this table can become
equal to a canonicalized character of the unit grammars, so the induced
match relation against those grammars agrees with the full ECMAScript one. -/
def canonC (c : ℕ) : ℕ :=
  if 97 ≤ c ∧ c ≤ 122 then c - 32
  else if c = 0x3BC ∨ c = 0xB5 then 0x39C
  else c

/-- JS `String.prototype.toLowerCase`, restricted to the code points that can
occur in a regex-accepted unit suffix (ASCII letters, μ U+03BC, µ U+00B5,
Μ U+039C).  The micro sign U+00B5 is already lowercase and maps to itself;
the Greek capital mu maps to the Greek small mu. -/
def lowerC (c : ℕ) : ℕ :=
  if 65 ≤ c ∧ c ≤ 90 then c + 32
  else if c = 0x39C then 0x3BC
  else c

/-! ## Binary64 arithmetic

A double is `fin m e` (exact value `m * 2^e`), an infinity, or NaN.  The
`fin` representation produced by rounding is canonical: zero is `fin 0 0`,
a normal value has `2^52 ≤ |m| < 2^53`, and a subnormal value has
`e = -1074`; hence structural equality of rounded doubles coincides with
value equality. -/

inductive JNum where
  | fin (m : ℤ) (e : ℤ)
  | inf (pos : Bool)
  | nan
deriving DecidableEq

/-- Exact rational value of a finite double (junk value 0 on `inf`/`nan`;
used only in specifications and proofs). -/
def JNum.val : JNum → ℚ
  | .fin m e => (m : ℚ) * (2 : ℚ) ^ e
  | _ => 0

def JNum.neg : JNum → JNum
  | .fin m e => .fin (-m) e
  | .inf p => .inf (!p)
  | .nan => .nan

/-- Fuel-driven floor of log₂.  With fuel `n` itself the recursion always has
enough fuel (`n < 2^n`), so `log2fuel n n` is floor-log₂ for every `n > 0`,
while remaining structurally recursive and kernel-reducible. -/
def log2fuel : ℕ → ℕ → ℕ
  | 0, _ => 0
  | f + 1, n => if n ≤ 1 then 0 else log2fuel f (n / 2) + 1

/-- Floor of log₂ on ℕ (valid for `n > 0`). -/
def natLog2 (n : ℕ) : ℕ := log2fuel n n

/-- Decide `2^e ≤ a / b` for naturals `a b > 0` and an integer exponent. -/
def pow2le (e : ℤ) (a b : ℕ) : Bool :=
  if 0 ≤ e then decide (b * 2 ^ e.toNat ≤ a) else decide (b ≤ a * 2 ^ (-e).toNat)

/-- Floor of log₂ of the positive rational `a / b`. -/
def ilog2 (a b : ℕ) : ℤ :=
  let g : ℤ := (natLog2 a : ℤ) - (natLog2 b : ℤ)
  if pow2le g a b then g else g - 1

/-- Round the rational `a / b` (with `b > 0`) to the nearest natural,
ties to even. -/
def rhe (a b : ℕ) : ℕ :=
  let n := a / b
  let r := a % b
  if 2 * r < b then n
  else if b < 2 * r then n + 1
  else if n % 2 = 0 then n else n + 1

/-- Package a rounded magnitude `M * 2^u` (`M ≤ 2^53`) as a canonical
positive double: renormalize the carry case `M = 2^53`, send zero to
`fin 0 0`, and overflow at `2^1024` to `+Infinity`. -/
def mkFin (M : ℕ) (u : ℤ) : JNum :=
  if M = 0 then .fin 0 0
  else if M = 2 ^ 53 then
    if 0 ≤ u + 1 ∧ 2 ^ 1024 ≤ 2 ^ 52 * 2 ^ (u + 1).toNat then .inf true
    else .fin ((2 ^ 52 : ℕ) : ℤ) (u + 1)
  else
    if 0 ≤ u ∧ 2 ^ 1024 ≤ M * 2 ^ u.toNat then .inf true
    else .fin (M : ℤ) u

/-- Round the positive rational `a / b` to the nearest binary64 value,
ties to even (IEEE-754 `roundTiesToEven`, subnormals included, overflow to
`+Infinity`). -/
def roundPos (a b : ℕ) : JNum :=
  let e := ilog2 a b
  let u : ℤ := max (e - 52) (-1074)
  let M : ℕ := if 0 ≤ u then rhe a (b * 2 ^ u.toNat) else rhe (a * 2 ^ (-u).toNat) b
  mkFin M u

/-- Round the rational `n / d` (`d > 0`) to the nearest binary64 value. -/
def roundRat (n : ℤ) (d : ℕ) : JNum :=
  if n = 0 then .fin 0 0
  else if 0 < n then roundPos n.toNat d
  else (roundPos (-n).toNat d).neg

/-- JS multiplication of two doubles. -/
def fmul : JNum → JNum → JNum
  | .fin m1 e1, .fin m2 e2 =>
    let ee := e1 + e2
    if 0 ≤ ee then roundRat (m1 * m2 * 2 ^ ee.toNat) 1
    else roundRat (m1 * m2) (2 ^ (-ee).toNat)
  | .inf p, .fin m _ => if m = 0 then .nan else .inf (p == decide (0 < m))
  | .fin m _, .inf p => if m = 0 then .nan else .inf (p == decide (0 < m))
  | .inf p, .inf q => .inf (p == q)
  | .nan, _ => .nan
  | _, .nan => .nan

/-- JS division of two doubles. -/
def fdiv : JNum → JNum → JNum
  | .fin m1 e1, .fin m2 e2 =>
    if m2 = 0 then (if m1 = 0 then .nan else .inf (decide (0 < m1)))
    else
      let n : ℤ := if 0 < m2 then m1 else -m1
      let d : ℕ := m2.natAbs
      let ee := e1 - e2
      if 0 ≤ ee then roundRat (n * 2 ^ ee.toNat) d
      else roundRat n (d * 2 ^ (-ee).toNat)
  | .fin _ _, .inf _ => .fin 0 0
  | .inf p, .fin m _ => .inf (p == decide (0 ≤ m))
  | .inf _, .inf _ => .nan
  | .nan, _ => .nan
  | _, .nan => .nan

/-- JS `x >= 1` on a double (`Infinity >= 1` is true, `NaN >= 1` is false). -/
def fge1 : JNum → Bool
  | .nan => false
  | .inf p => p
  | .fin m e =>
    if m ≤ 0 then false
    else if 0 ≤ e then true
    else decide (2 ^ (-e).toNat ≤ m.toNat)

/-- JS `Number(z)` on a BigInt: round to the nearest double. -/
def jsNumber (z : ℤ) : JNum := roundRat z 1

/-- JS `BigInt(Math.floor(x))` on a double `x`: `Math.floor` of an infinity
or NaN stays non-finite and `BigInt` of it throws a `RangeError` (`none`);
on a finite double it is the floor. -/
def jsFloorBigInt : JNum → Option ℤ
  | .fin m e => some (if 0 ≤ e then m * 2 ^ e.toNat else Int.fdiv m (2 ^ (-e).toNat))
  | _ => none

/-! ## Decimal rendering of naturals, integers and doubles -/

/-- Fuel-driven big-endian decimal digits (as code points); with fuel `n + 1`
the recursion always has enough fuel. -/
def digitsFuel : ℕ → ℕ → List ℕ
  | 0, _ => []
  | f + 1, n => if n ≤ 9 then [n + 48] else digitsFuel f (n / 10) ++ [n % 10 + 48]

/-- Decimal digits of a natural, as code points. -/
def natDecChars (n : ℕ) : List ℕ := digitsFuel (n + 1) n

/-- JS `${z}` on a BigInt (its decimal string). -/
def intToChars (z : ℤ) : List ℕ :=
  if z < 0 then 45 :: natDecChars (-z).toNat else natDecChars z.toNat

/-- Fuel-driven number of decimal digits. -/
def digLenFuel : ℕ → ℕ → ℕ
  | 0, _ => 1
  | f + 1, n => if n ≤ 9 then 1 else digLenFuel f (n / 10) + 1

/-- Number of decimal digits of a natural (1 for 0). -/
def digLen (n : ℕ) : ℕ := digLenFuel n n

/-- Decide `10^e ≤ a / b` for naturals `a b > 0` and an integer exponent. -/
def pow10le (e : ℤ) (a b : ℕ) : Bool :=
  if 0 ≤ e then decide (b * 10 ^ e.toNat ≤ a) else decide (b ≤ a * 10 ^ (-e).toNat)

/-- Floor of log₁₀ of the positive rational `a / b`. -/
def ilog10 (a b : ℕ) : ℤ :=
  let g : ℤ := (digLen a : ℤ) - (digLen b : ℤ)
  if pow10le g a b then g else g - 1

/-- The double obtained by rounding the decimal value `s * 10^Δ`. -/
def roundDec (s : ℕ) (Δ : ℤ) : JNum :=
  if 0 ≤ Δ then roundRat (s * 10 ^ Δ.toNat) 1 else roundRat s (10 ^ (-Δ).toNat)

/-- `|s * 10^Δ - a/b|` as a fraction (numerator, positive denominator). -/
def distFrac (a b s : ℕ) (Δ : ℤ) : ℕ × ℕ :=
  if 0 ≤ Δ then (((s * 10 ^ Δ.toNat * b : ℤ) - a).natAbs, b)
  else (((s * b : ℤ) - a * 10 ^ (-Δ).toNat).natAbs, b * 10 ^ (-Δ).toNat)

/-- Candidate `c₂` beats candidate `c₁` (strictly closer to `a/b`, or equally
close with an even significand against an odd one), for `k`-digit
significands; a candidate is `(s, n)` standing for `s * 10^(n-k)`. -/
def betterCand (a b k : ℕ) (c₁ c₂ : ℕ × ℤ) : Bool :=
  let d₁ := distFrac a b c₁.1 (c₁.2 - k)
  let d₂ := distFrac a b c₂.1 (c₂.2 - k)
  decide (d₂.1 * d₁.2 < d₁.1 * d₂.2) ||
    (decide (d₂.1 * d₁.2 = d₁.1 * d₂.2) && decide (c₂.1 % 2 = 0) &&
      decide (c₁.1 % 2 ≠ 0))

/-- Search, for `k = k₀, k₀+1, …` (fuel-bounded), the shortest decimal
significand: the least `k` admitting `s` with `10^(k-1) ≤ s < 10^k` such
that the decimal `s * 10^(n'-k)` rounds to the double `x` of value `a / b`
(ECMAScript `Number::toString`, radix 10).  Among the admissible `s` for
that `k`, the closest to `a / b` is chosen, ties to even.  Candidates
beyond `s₀ ± 1` (with `s₀` the rounding of `a/b / 10^(n-k)`) cannot be
closest because the set of decimals rounding to `x` is an interval around
`a / b`; the extra candidate `10^(k-1)` at exponent `n + 1` covers values
just below a power of ten whose shortest representation is that power. -/
def findRep (x : JNum) (a b : ℕ) (n : ℤ) : ℕ → ℕ → Option (ℕ × ℕ × ℤ)
  | 0, _ => none
  | f + 1, k =>
    let Δ := n - k
    let s0 := if 0 ≤ Δ then rhe a (b * 10 ^ Δ.toNat) else rhe (a * 10 ^ (-Δ).toNat) b
    let cands : List (ℕ × ℤ) := [(s0 - 1, n), (s0, n), (s0 + 1, n), (10 ^ (k - 1), n + 1)]
    let valid := fun c : ℕ × ℤ =>
      decide (10 ^ (k - 1) ≤ c.1) && decide (c.1 < 10 ^ k) &&
        decide (roundDec c.1 (c.2 - k) = x)
    let best := cands.foldl
      (fun best c =>
        if valid c && best.elim true (fun b₀ => betterCand a b k b₀ c) then some c
        else best)
      none
    match best with
    | some (s, nn) => some (k, s, nn)
    | none => findRep x a b n f (k + 1)

/-- Render a positive finite double `x` of value `a / b` in ECMAScript
`Number::toString` (radix 10) notation. -/
def posToChars (x : JNum) (a b : ℕ) : List ℕ :=
  let n := ilog10 a b + 1
  match findRep x a b n 17 1 with
  | none => jstr "?"
  | some (k, s, nn) =>
    let ds := natDecChars s
    if k ≤ nn ∧ nn ≤ 21 then ds ++ List.replicate (nn - k).toNat 48
    else if 0 < nn ∧ nn ≤ 21 then ds.take nn.toNat ++ [46] ++ ds.drop nn.toNat
    else if -5 ≤ nn ∧ nn ≤ 0 then jstr "0." ++ List.replicate (-nn).toNat 48 ++ ds
    else
      let ex := nn - 1
      let exChars := (if ex < 0 then [45] else [43]) ++ natDecChars ex.natAbs
      if k = 1 then ds ++ [101] ++ exChars
      else ds.take 1 ++ [46] ++ ds.drop 1 ++ [101] ++ exChars

/-- JS `${x}` on a double: ECMAScript `ToString` of a Number. -/
def numToChars : JNum → List ℕ
  | .nan => jstr "NaN"
  | .inf p => if p then jstr "Infinity" else jstr "-Infinity"
  | .fin m e =>
    if m = 0 then jstr "0"
    else
      let mm := m.natAbs
      let xa : JNum := .fin (mm : ℤ) e
      let ab : ℕ × ℕ := if 0 ≤ e then (mm * 2 ^ e.toNat, 1) else (mm, 2 ^ (-e).toNat)
      (if m < 0 then [45] else []) ++ posToChars xa ab.1 ab.2

/-! ## Constants (`GAS_UNITS`, `NEAR_UNITS`)

In the source these are built as `BigInt(10 ** k)`: the JS number `10 ** k`
converted to a BigInt.  `10 ** k` is an ECMAScript *implementation-
approximated* power, modeled here as the correctly rounded one; for
`k ∈ {9, 12, 18, 20, 21}` the power is exactly representable, while
`BigInt(10 ** 24)` is the nearest double to 10²⁴, namely
999999999999999983222784 — NOT 10²⁴. -/

/-- JS `10 ** k` (modeled as correctly rounded). -/
def jsTenPow (k : ℕ) : JNum := roundRat (10 ^ k) 1

/-- JS `BigInt(x)` on an integral finite double (0 on the unreachable
non-finite case). -/
def jsBigIntOfNum (x : JNum) : ℤ := (jsFloorBigInt x).getD 0

def GAS_UNITS_TGAS : ℤ := jsBigIntOfNum (jsTenPow 12)
def GAS_UNITS_GGAS : ℤ := jsBigIntOfNum (jsTenPow 9)
def NEAR_UNITS_NEAR : ℤ := jsBigIntOfNum (jsTenPow 24)
def NEAR_UNITS_MILLI_NEAR : ℤ := jsBigIntOfNum (jsTenPow 21)
def NEAR_UNITS_MICRO_NEAR : ℤ := jsBigIntOfNum (jsTenPow 18)

/-! ## The quantity grammar (the regexes) -/

/-- `^(\d+(\.\d+)?)\s*(u₁|u₂|…)$` with case-insensitive unit alternatives:
returns the integer-part digits, the optional fraction digits, and the unit
capture (the input's own characters).  Both regexes of a schema (the one in
`z.string().regex(...)` and the one re-run inside `.transform`) describe the
same language and the same three payload groups, so a single matcher models
both.  Since no unit contains whitespace or digits, the greedy `\d+`,
`(\.\d+)?` and `\s*` never backtrack usefully and the final alternative
group must consume the entire remaining suffix. -/
def qtyMatch (units : List (List ℕ)) (cs : List ℕ) :
    Option (List ℕ × Option (List ℕ) × List ℕ) :=
  let ds := cs.takeWhile (fun c => isDigitC c)
  let r1 := cs.dropWhile (fun c => isDigitC c)
  if ds.isEmpty then none
  else
    match r1 with
    | 46 :: r2 =>
      let fs := r2.takeWhile (fun c => isDigitC c)
      let r3 := r2.dropWhile (fun c => isDigitC c)
      if fs.isEmpty then none
      else
        let rest := r3.dropWhile (fun c => isSpaceC c)
        if units.any (fun u => rest.map canonC = u.map canonC) then some (ds, some fs, rest)
        else none
    | _ =>
      let rest := r1.dropWhile (fun c => isSpaceC c)
      if units.any (fun u => rest.map canonC = u.map canonC) then some (ds, none, rest)
      else none

def gasUnitStrs : List (List ℕ) := [jstr "TGas", jstr "GGas", jstr "Gas"]

def nearUnitStrs : List (List ℕ) :=
  [jstr "NEAR", jstr "mNEAR", jstr "milliNEAR", jstr "μNEAR", jstr "microNEAR",
   jstr "yoctoNEAR", jstr "yocto"]

/-- Value of `parseFloat` on the numeric capture `\d+(\.\d+)?`. -/
def natOfDigits (l : List ℕ) : ℕ := l.foldl (fun a c => 10 * a + (c - 48)) 0

/-- `parseFloat(amount)`: the decimal value of the capture rounded to the
nearest double. -/
def amountVal (ds : List ℕ) (fs : Option (List ℕ)) : JNum :=
  match fs with
  | none => roundRat (natOfDigits ds) 1
  | some f => roundRat (natOfDigits ds * 10 ^ f.length + natOfDigits f) (10 ^ f.length)

/-! ## Errors, results, messages -/

/-- Structured failure of one schema.  `unionError` is the zod failure of the
`z.union([z.string().regex(...), z.bigint()])` input gate (the only failure a
malformed string can reach); `invalidFormat` / `unknownUnit` are the two
`ctx.addIssue` + `z.NEVER` branches inside `.transform`; `rangeError` models
the `RangeError` thrown by `BigInt(Infinity)` when the scaled amount
overflows binary64. -/
inductive ZErr where
  | unionError (msgs : List (List ℕ))
  | invalidFormat (msg : List ℕ)
  | unknownUnit (msg : List ℕ)
  | rangeError
deriving DecidableEq

/-- Result of one schema's `parse`. -/
inductive POut where
  | ok (z : ℤ)
  | err (e : ZErr)
deriving DecidableEq

/-- The messages carried by the zod union failure: the union's own
"Invalid input", the regex check's default "Invalid", and the bigint
branch's type error. -/
def zodUnionMsgs : List (List ℕ) :=
  [jstr "Invalid input", jstr "Invalid", jstr "Expected bigint, received string"]

def gasInvalidMsg : List ℕ :=
  jstr "Invalid gas format. Use format like \"25.5 TGas\", \"300 GGas\", or \"1000 Gas\""

def gasUnknownMsg : List ℕ := jstr "Unknown gas unit. Supported: TGas, GGas, Gas"

def nearInvalidMsg : List ℕ :=
  jstr "Invalid NEAR format. Use format like \"0.01 NEAR\", \"500 mNEAR\", \"1000 μNEAR\", or \"100 yocto\""

def nearUnknownMsg : List ℕ :=
  jstr "Unknown NEAR unit. Supported: NEAR, mNEAR/milliNEAR, μNEAR/microNEAR, yoctoNEAR/yocto"

def gasWarnMsg (z : ℤ) : List ℕ :=
  jstr "⚠️  Gas limit " ++ intToChars z ++
    jstr " seems very small. Did you mean \"" ++ intToChars z ++ jstr " TGas\"?"

def nearWarnMsg (z : ℤ) : List ℕ :=
  jstr "⚠️  NEAR amount " ++ intToChars z ++
    jstr " yoctoNEAR seems very small. Did you mean a larger unit?"

/-- A schema input: a JS string or a BigInt. -/
inductive JsInput where
  | str (cs : List ℕ)
  | big (z : ℤ)

/-- `BigInt(Math.floor(x))` as a parse outcome. -/
def floorOut (x : JNum) : POut :=
  match jsFloorBigInt x with
  | some z => .ok z
  | none => .err .rangeError

/-! ## The two schemas -/

/-- The `.transform` body of `gasSchema` on a string input: re-match the
regex (the no-match branch is kept although no string passing the union's
identical regex can reach it), `parseFloat` the amount, and dispatch on the
lower-cased unit capture. -/
def gasTransform (cs : List ℕ) : POut :=
  match qtyMatch gasUnitStrs cs with
  | none => .err (.invalidFormat gasInvalidMsg)
  | some (ds, fs, u) =>
    let numAmount := amountVal ds fs
    let ul := u.map lowerC
    if ul = jstr "tgas" then floorOut (fmul numAmount (jsNumber GAS_UNITS_TGAS))
    else if ul = jstr "ggas" then floorOut (fmul numAmount (jsNumber GAS_UNITS_GGAS))
    else if ul = jstr "gas" then floorOut numAmount
    else .err (.unknownUnit gasUnknownMsg)

/-- `gasSchema.parse`: a string must pass the union's regex gate before the
transform runs; a BigInt passes through unchanged, with a console warning
(second component) when it is suspiciously small (`< 300n`). -/
def gasParse : JsInput → POut × Option (List ℕ)
  | .big z => (.ok z, if z < 300 then some (gasWarnMsg z) else none)
  | .str cs =>
    if (qtyMatch gasUnitStrs cs).isSome then (gasTransform cs, none)
    else (.err (.unionError zodUnionMsgs), none)

/-- The `.transform` body of `nearSchema` on a string input. -/
def nearTransform (cs : List ℕ) : POut :=
  match qtyMatch nearUnitStrs cs with
  | none => .err (.invalidFormat nearInvalidMsg)
  | some (ds, fs, u) =>
    let numAmount := amountVal ds fs
    let ul := u.map lowerC
    if ul = jstr "near" then floorOut (fmul numAmount (jsNumber NEAR_UNITS_NEAR))
    else if ul = jstr "mnear" ∨ ul = jstr "millinear" then
      floorOut (fmul numAmount (jsNumber NEAR_UNITS_MILLI_NEAR))
    else if ul = jstr "μnear" ∨ ul = jstr "micronear" then
      floorOut (fmul numAmount (jsNumber NEAR_UNITS_MICRO_NEAR))
    else if ul = jstr "yoctonear" ∨ ul = jstr "yocto" then floorOut numAmount
    else .err (.unknownUnit nearUnknownMsg)

/-- `nearSchema.parse`; the small-value warning threshold is
`BigInt(10 ** 20)` (exactly 10²⁰). -/
def nearParse : JsInput → POut × Option (List ℕ)
  | .big z =>
    (.ok z, if z < jsBigIntOfNum (jsTenPow 20) then some (nearWarnMsg z) else none)
  | .str cs =>
    if (qtyMatch nearUnitStrs cs).isSome then (nearTransform cs, none)
    else (.err (.unionError zodUnionMsgs), none)

/-! ## Composite validator -/

structure CallParams where
  gasLimit : JsInput
  attachedDeposit : JsInput

/-- Result of `callFunctionSchema.parse`: a validated record or the list of
field errors (zod's object parse collects the issues of every failing key). -/
inductive VOut where
  | ok (gasLimit attachedDeposit : ℤ)
  | err (es : List ZErr)
deriving DecidableEq

/-- `callFunction` / `callFunctionSchema.parse`: run `gasSchema` on
`gasLimit` and `nearSchema` on `attachedDeposit`, succeed only if both do,
aggregate errors otherwise; warnings of both fields are reported. -/
def callFunction (p : CallParams) : VOut × (Option (List ℕ) × Option (List ℕ)) :=
  let g := gasParse p.gasLimit
  let n := nearParse p.attachedDeposit
  (match g.1, n.1 with
   | .ok gz, .ok nz => .ok gz nz
   | .err e, .ok _ => .err [e]
   | .ok _, .err e => .err [e]
   | .err e₁, .err e₂ => .err [e₁, e₂],
   (g.2, n.2))

/-! ## Conversion and formatting utilities -/

/-- `gas.tgas(amount)` = `BigInt(Math.floor(amount * Number(GAS_UNITS.TGAS)))`. -/
def gas_tgas (amount : JNum) : Option ℤ :=
  jsFloorBigInt (fmul amount (jsNumber GAS_UNITS_TGAS))

def gas_ggas (amount : JNum) : Option ℤ :=
  jsFloorBigInt (fmul amount (jsNumber GAS_UNITS_GGAS))

def near_near (amount : JNum) : Option ℤ :=
  jsFloorBigInt (fmul amount (jsNumber NEAR_UNITS_NEAR))

def near_milli (amount : JNum) : Option ℤ :=
  jsFloorBigInt (fmul amount (jsNumber NEAR_UNITS_MILLI_NEAR))

def near_micro (amount : JNum) : Option ℤ :=
  jsFloorBigInt (fmul amount (jsNumber NEAR_UNITS_MICRO_NEAR))

/-- `gasUtils.toTGas` = `Number(gasAmount) / Number(GAS_UNITS.TGAS)`. -/
def gasUtils_toTGas (x : ℤ) : JNum := fdiv (jsNumber x) (jsNumber GAS_UNITS_TGAS)

def gasUtils_toGGas (x : ℤ) : JNum := fdiv (jsNumber x) (jsNumber GAS_UNITS_GGAS)

def gasUtils_fromTGas (a : JNum) : Option ℤ := gas_tgas a

def gasUtils_fromGGas (a : JNum) : Option ℤ := gas_ggas a

def nearUtils_toNEAR (x : ℤ) : JNum := fdiv (jsNumber x) (jsNumber NEAR_UNITS_NEAR)

def nearUtils_toMilliNEAR (x : ℤ) : JNum :=
  fdiv (jsNumber x) (jsNumber NEAR_UNITS_MILLI_NEAR)

def nearUtils_toMicroNEAR (x : ℤ) : JNum :=
  fdiv (jsNumber x) (jsNumber NEAR_UNITS_MICRO_NEAR)

def nearUtils_fromNEAR (a : JNum) : Option ℤ := near_near a

def nearUtils_fromMilliNEAR (a : JNum) : Option ℤ := near_milli a

def nearUtils_fromMicroNEAR (a : JNum) : Option ℤ := near_micro a

/-- `gasUtils.format`: TGas if `>= 1`, else GGas if `>= 1`, else the raw
BigInt with suffix `Gas`. -/
def gasUtils_format (x : ℤ) : List ℕ :=
  let tgas := gasUtils_toTGas x
  if fge1 tgas then numToChars tgas ++ jstr " TGas"
  else
    let ggas := gasUtils_toGGas x
    if fge1 ggas then numToChars ggas ++ jstr " GGas"
    else intToChars x ++ jstr " Gas"

/-- `nearUtils.format`: NEAR, then mNEAR, then μNEAR, else raw yocto. -/
def nearUtils_format (x : ℤ) : List ℕ :=
  let nearVal := nearUtils_toNEAR x
  if fge1 nearVal then numToChars nearVal ++ jstr " NEAR"
  else
    let milli := nearUtils_toMilliNEAR x
    if fge1 milli then numToChars milli ++ jstr " mNEAR"
    else
      let micro := nearUtils_toMicroNEAR x
      if fge1 micro then numToChars micro ++ jstr " μNEAR"
      else intToChars x ++ jstr " yocto"

/-! ## Auxiliary notions used by the claims -/

/-- `pat` is a prefix of `l`. -/
def startsWithL : List ℕ → List ℕ → Bool
  | [], _ => true
  | _ :: _, [] => false
  | p :: ps, c :: cs => (p == c) && startsWithL ps cs

/-- `pat` occurs as a contiguous segment of `l`. -/
def containsSeg (pat : List ℕ) : List ℕ → Bool
  | [] => pat.isEmpty
  | c :: cs => startsWithL pat (c :: cs) || containsSeg pat cs

/-- A numeral of the grammar `\d+(\.\d+)?`: integer-part digits and optional
fraction digits (all as code points). -/
structure Numeral where
  intDigits : List ℕ
  fracDigits : Option (List ℕ)

/-- Well-formedness (decidably): nonempty digit groups of ASCII digits. -/
def Numeral.wfB (n : Numeral) : Bool :=
  !n.intDigits.isEmpty && n.intDigits.all (fun c => isDigitC c) &&
    (match n.fracDigits with
     | none => true
     | some f => !f.isEmpty && f.all (fun c => isDigitC c))

/-- Well-formedness of a numeral. -/
def Numeral.WF (n : Numeral) : Prop := n.wfB = true

/-- A plausible unit-suffix shape: nonempty, not beginning with a digit, a
whitespace character, or a dot (true of every spelling in the unit tables;
used to drive the matcher over rendered quantity strings). -/
def unitOK : List ℕ → Bool
  | [] => false
  | c :: _ => !isDigitC c && !isSpaceC c && !(c == 46)

/-- The characters of the numeral. -/
def Numeral.render (n : Numeral) : List ℕ :=
  n.intDigits ++ (match n.fracDigits with | none => [] | some f => 46 :: f)

/-- The string `"<numeral> <unit>"` (single space). -/
def qtyStr (n : Numeral) (u : List ℕ) : List ℕ := n.render ++ [32] ++ u

/-- The double `parseFloat` produces for the numeral. -/
def Numeral.amount (n : Numeral) : JNum := amountVal n.intDigits n.fracDigits

/-- The exact rational value of the numeral. -/
def Numeral.qval (n : Numeral) : ℚ :=
  match n.fracDigits with
  | none => (natOfDigits n.intDigits : ℚ)
  | some f => ((natOfDigits n.intDigits * 10 ^ f.length + natOfDigits f : ℕ) : ℚ) /
      ((10 ^ f.length : ℕ) : ℚ)

/-- The numeral of a natural number (its decimal digits, no fraction). -/
def natNumeral (k : ℕ) : Numeral := ⟨natDecChars k, none⟩

/-- A double is non-negative whenever it is finite (the invariant of every
double built on the string-parsing path). -/
def NonnegF (x : JNum) : Prop := ∀ m e, x = .fin m e → 0 ≤ m

/-! # Theorems -/

/-! ## Shared evaluation facts -/

theorem NEAR_UNITS_NEAR_val : NEAR_UNITS_NEAR = 999999999999999983222784 := by decide

theorem tokenThreshold_val : jsBigIntOfNum (jsTenPow 20) = 10 ^ 20 := by decide

/-! ## C5 — the raw-integer path returns the value unchanged -/

/-- Claim C5: for every raw BigInt input, both quantity parsers return the
input unchanged as the canonical quantity; the plausibility check on this
path at most attaches a warning (the second component) and never fails,
blocks, or alters the value. -/
theorem claim5_bigint_passthrough (z : ℤ) :
    (gasParse (.big z)).1 = .ok z ∧ (nearParse (.big z)).1 = .ok z :=
  ⟨rfl, rfl⟩

/-! ## C6 — plausibility thresholds -/

/-- Claim C6: the raw-integer warning fires exactly below the kind's
threshold: `< 300` for gas and `< 10^20` for tokens; in particular 10 warns
and 1000 does not for gas, and 1000 warns and 10²⁴ does not for tokens. -/
theorem claim6_thresholds (z : ℤ) :
    ((gasParse (.big z)).2.isSome ↔ z < 300) ∧
    ((nearParse (.big z)).2.isSome ↔ z < 10 ^ 20) ∧
    (gasParse (.big 10)).2.isSome = true ∧
    (gasParse (.big 1000)).2 = none ∧
    (nearParse (.big 1000)).2.isSome = true ∧
    (nearParse (.big (10 ^ 24))).2 = none := by
  refine ⟨?_, ?_, by decide, by decide, by decide, by decide⟩
  · by_cases h : z < 300 <;> simp [gasParse, h]
  · by_cases h : z < 10 ^ 20 <;>
      simp [nearParse, tokenThreshold_val, h]

/-! ## C10 — negative integers pass through -/

/-- Claim C10: every negative BigInt input is accepted unchanged by both
parsers (only the small-value warning fires), so the public interface can
produce a negative result although the spec's canonical quantity is
non-negative. -/
theorem claim10_negative_passthrough (z : ℤ) (hz : z < 0) :
    (gasParse (.big z)).1 = .ok z ∧ (gasParse (.big z)).2 = some (gasWarnMsg z) ∧
    (nearParse (.big z)).1 = .ok z ∧ (nearParse (.big z)).2 = some (nearWarnMsg z) := by
  have h300 : z < 300 := lt_of_lt_of_le hz (by norm_num)
  have h20 : z < jsBigIntOfNum (jsTenPow 20) := by
    rw [tokenThreshold_val]; exact lt_of_lt_of_le hz (by norm_num)
  exact ⟨rfl, by simp [gasParse, h300], rfl, by simp [nearParse, h20]⟩

theorem claim10_witness :
    (gasParse (.big (-5))).1 = .ok (-5) ∧
      (gasParse (.big (-5))).2 = some (gasWarnMsg (-5)) ∧
      (nearParse (.big (-5))).1 = .ok (-5) ∧
      (nearParse (.big (-5))).2 = some (nearWarnMsg (-5)) :=
  claim10_negative_passthrough (-5) (by decide)

/-! ## C7 — what a malformed string's error payload actually contains -/

/-- Claim C7 (refutation of the payload clause): a string failing the
grammar is indeed rejected, but the failure is the zod union's generic
error, whose messages ("Invalid input", "Invalid", "Expected bigint,
received string") name neither the offending kind nor any example format;
the descriptive message with example formats exists in the source but only
on the transform's unreachable no-match branch.  Evaluations at the claim's
own examples `"25"` and `"25 XGas"` for kind GAS. -/
theorem claim7_generic_union_error :
    (gasParse (.str (jstr "25"))).1 = .err (.unionError zodUnionMsgs) ∧
    (gasParse (.str (jstr "25 XGas"))).1 = .err (.unionError zodUnionMsgs) ∧
    (∀ m ∈ zodUnionMsgs, containsSeg (jstr "Gas") m = false ∧
      containsSeg (jstr "gas") m = false) ∧
    containsSeg (jstr "25.5 TGas") gasInvalidMsg = true := by
  refine ⟨by decide, by decide, ?_, by decide⟩
  decide

/-! ## C2 — the composite validator -/

/-- Claim C2: `callFunction` yields a record exactly when the gas field and
the NEAR field both parse; when at least one fails no record is produced and
at least one error is reported; and on `"25.5 TGas"` / `"0.01 NEAR"` it
succeeds with limit 25500000000000 = 25.5·10¹² and attached 10²² = 0.01·10²⁴
(the float truncation happens to be exact here). -/
theorem claim2_composite (p : CallParams) :
    ((∃ g n, (callFunction p).1 = .ok g n) ↔
      (∃ g, (gasParse p.gasLimit).1 = .ok g) ∧
        (∃ n, (nearParse p.attachedDeposit).1 = .ok n)) ∧
    (∀ es, (callFunction p).1 = .err es → es ≠ []) ∧
    (callFunction ⟨.str (jstr "25.5 TGas"), .str (jstr "0.01 NEAR")⟩).1 =
      .ok 25500000000000 (10 ^ 22) := by
  refine ⟨?_, ?_, by decide⟩
  · cases hg : (gasParse p.gasLimit).1 <;> cases hn : (nearParse p.attachedDeposit).1 <;>
      simp [callFunction, hg, hn]
  · intro es hes
    cases hg : (gasParse p.gasLimit).1 <;> cases hn : (nearParse p.attachedDeposit).1 <;>
      simp [callFunction, hg, hn] at hes <;> simp [hes.symm]

theorem claim2_witness :
    ([ZErr.unionError zodUnionMsgs] : List ZErr) ≠ [] :=
  (claim2_composite ⟨.str (jstr "25"), .big 5⟩).2.1 _ (by decide)

/-! ## C3 — formatting picks the largest tier reaching 1 -/

/-- Claim C3: `format` renders `"<value> <suffix>"` in the largest tier whose
converted value is ≥ 1, checking tiers from largest to smallest (gas: TGas,
GGas, raw Gas; token: NEAR, mNEAR, μNEAR, raw yocto), falling back to the
raw base-unit integer; with the claim's concrete instances. -/
theorem claim3_format_cascade (x : ℤ) :
    (fge1 (gasUtils_toTGas x) = true →
      gasUtils_format x = numToChars (gasUtils_toTGas x) ++ jstr " TGas") ∧
    (fge1 (gasUtils_toTGas x) = false → fge1 (gasUtils_toGGas x) = true →
      gasUtils_format x = numToChars (gasUtils_toGGas x) ++ jstr " GGas") ∧
    (fge1 (gasUtils_toTGas x) = false → fge1 (gasUtils_toGGas x) = false →
      gasUtils_format x = intToChars x ++ jstr " Gas") ∧
    (fge1 (nearUtils_toNEAR x) = true →
      nearUtils_format x = numToChars (nearUtils_toNEAR x) ++ jstr " NEAR") ∧
    (fge1 (nearUtils_toNEAR x) = false → fge1 (nearUtils_toMilliNEAR x) = true →
      nearUtils_format x = numToChars (nearUtils_toMilliNEAR x) ++ jstr " mNEAR") ∧
    (fge1 (nearUtils_toNEAR x) = false → fge1 (nearUtils_toMilliNEAR x) = false →
      fge1 (nearUtils_toMicroNEAR x) = true →
      nearUtils_format x = numToChars (nearUtils_toMicroNEAR x) ++ jstr " μNEAR") ∧
    (fge1 (nearUtils_toNEAR x) = false → fge1 (nearUtils_toMilliNEAR x) = false →
      fge1 (nearUtils_toMicroNEAR x) = false →
      nearUtils_format x = intToChars x ++ jstr " yocto") ∧
    gasUtils_format (25 * 10 ^ 12) = jstr "25 TGas" ∧
    gasUtils_format 1000 = jstr "1000 Gas" ∧
    nearUtils_format (10 ^ 24) = jstr "1 NEAR" ∧
    nearUtils_format (500 * 10 ^ 21) = jstr "500 mNEAR" ∧
    nearUtils_format 100 = jstr "100 yocto" := by
  refine ⟨?_, ?_, ?_, ?_, ?_, ?_, ?_,
    by decide, by decide, by decide, by decide, by decide⟩ <;>
    intro h₁ <;> try intro h₂ <;> try intro h₃
  all_goals simp_all [gasUtils_format, nearUtils_format]

theorem claim3_witness :
    gasUtils_format (25 * 10 ^ 12) =
      numToChars (gasUtils_toTGas (25 * 10 ^ 12)) ++ jstr " TGas" :=
  (claim3_format_cascade (25 * 10 ^ 12)).1 (by decide)

/-! ## Correctness of the binary64 rounding core

`roundPos` is shown to be the identity (up to canonical representation) on
values `M * 2^t` with `M ≤ 2^53` — the exactly representable doubles — which
is the engine behind every exactness statement about the parser and the
tier conversions. -/

theorem log2fuel_correct (f : ℕ) : ∀ n : ℕ, 0 < n → n < 2 ^ f →
    2 ^ log2fuel f n ≤ n ∧ n < 2 ^ (log2fuel f n + 1) := by
  induction f with
  | zero => intro n hn hlt; simp at hlt; omega
  | succ f ih =>
    intro n hn hlt
    rw [log2fuel]
    by_cases h1 : n ≤ 1
    · have hn1 : n = 1 := by omega
      subst hn1; simp
    · rw [if_neg h1]
      have hd : 0 < n / 2 := by omega
      have hd2 : n / 2 < 2 ^ f := by rw [pow_succ] at hlt; omega
      obtain ⟨ihl, ihr⟩ := ih (n / 2) hd hd2
      rw [pow_succ] at ihr
      rw [pow_succ, pow_succ]
      omega

theorem natLog2_correct (n : ℕ) (hn : 0 < n) :
    2 ^ natLog2 n ≤ n ∧ n < 2 ^ (natLog2 n + 1) :=
  log2fuel_correct n n hn (Nat.lt_two_pow n)

theorem cast_pow2_toNat (u : ℤ) (hu : 0 ≤ u) : ((2 ^ u.toNat : ℕ) : ℚ) = (2 : ℚ) ^ u := by
  rw [Nat.cast_pow, Nat.cast_ofNat, ← zpow_natCast, Int.toNat_of_nonneg hu]

theorem pow2le_true_iff (e : ℤ) (a b : ℕ) (hb : 0 < b) :
    pow2le e a b = true ↔ (2 : ℚ) ^ e ≤ (a : ℚ) / (b : ℚ) := by
  have hbQ : (0 : ℚ) < b := by exact_mod_cast hb
  rw [pow2le]
  split
  case isTrue h =>
    have hc : ((b * 2 ^ e.toNat : ℕ) : ℚ) = (2 : ℚ) ^ e * b := by
      push_cast [cast_pow2_toNat e h]
      ring
    rw [decide_eq_true_eq, le_div_iff₀ hbQ, ← hc, Nat.cast_le]
  case isFalse h =>
    push_neg at h
    have hk : (0 : ℤ) ≤ -e := by omega
    have h2 : (2 : ℚ) ^ e = 1 / (((2 ^ (-e).toNat : ℕ) : ℚ)) := by
      rw [cast_pow2_toNat _ hk, one_div, ← zpow_neg, neg_neg]
    have hkQ : (0 : ℚ) < ((2 ^ (-e).toNat : ℕ) : ℚ) := by positivity
    have hc : ((a * 2 ^ (-e).toNat : ℕ) : ℚ) = (a : ℚ) * ((2 ^ (-e).toNat : ℕ) : ℚ) := by
      push_cast
      ring
    rw [decide_eq_true_eq, h2, div_le_div_iff hkQ hbQ, one_mul, ← hc, Nat.cast_le]

theorem ilog2_correct (a b : ℕ) (ha : 0 < a) (hb : 0 < b) :
    (2 : ℚ) ^ ilog2 a b ≤ (a : ℚ) / b ∧ (a : ℚ) / b < (2 : ℚ) ^ (ilog2 a b + 1) := by
  obtain ⟨hal, har⟩ := natLog2_correct a ha
  obtain ⟨hbl, hbr⟩ := natLog2_correct b hb
  have hbQ : (0 : ℚ) < b := by exact_mod_cast hb
  have haQ : (0 : ℚ) < a := by exact_mod_cast ha
  have hq2 : (0 : ℚ) < (2 : ℚ) ^ natLog2 b := by positivity
  have hcast : ∀ k : ℕ, (2 : ℚ) ^ (k : ℤ) = (2 : ℚ) ^ (k : ℕ) := fun k => zpow_natCast 2 k
  have hkey_hi : (a : ℚ) / b < (2 : ℚ) ^ ((natLog2 a : ℤ) - natLog2 b + 1) := by
    have h1 : (a : ℚ) < (2 : ℚ) ^ (natLog2 a + 1) := by exact_mod_cast har
    have h2 : ((2 : ℚ)) ^ (natLog2 b : ℕ) ≤ b := by exact_mod_cast hbl
    have step : (a : ℚ) / b < (2 : ℚ) ^ (natLog2 a + 1) / (2 : ℚ) ^ natLog2 b :=
      div_lt_div h1 h2 (by positivity) hq2
    calc (a : ℚ) / b < (2 : ℚ) ^ (natLog2 a + 1) / (2 : ℚ) ^ natLog2 b := step
    _ = (2 : ℚ) ^ ((natLog2 a : ℤ) - natLog2 b + 1) := by
        rw [← hcast, ← hcast, ← zpow_sub₀ (by norm_num : (2 : ℚ) ≠ 0)]
        congr 1
        push_cast
        ring
  have hkey_lo : (2 : ℚ) ^ ((natLog2 a : ℤ) - natLog2 b - 1) < (a : ℚ) / b := by
    have h1 : ((2 : ℚ)) ^ (natLog2 a : ℕ) ≤ a := by exact_mod_cast hal
    have h2 : (b : ℚ) < (2 : ℚ) ^ (natLog2 b + 1) := by exact_mod_cast hbr
    have step1 : (2 : ℚ) ^ (natLog2 a : ℕ) / (2 : ℚ) ^ (natLog2 b + 1) <
        (2 : ℚ) ^ (natLog2 a : ℕ) / b :=
      div_lt_div_of_pos_left (by positivity) hbQ h2
    have step2 : (2 : ℚ) ^ (natLog2 a : ℕ) / b ≤ (a : ℚ) / b := by gcongr
    calc (2 : ℚ) ^ ((natLog2 a : ℤ) - natLog2 b - 1)
        = (2 : ℚ) ^ (natLog2 a : ℕ) / (2 : ℚ) ^ (natLog2 b + 1) := by
          rw [← hcast, ← hcast, ← zpow_sub₀ (by norm_num : (2 : ℚ) ≠ 0)]
          congr 1
          push_cast
          ring
    _ < (2 : ℚ) ^ (natLog2 a : ℕ) / b := step1
    _ ≤ (a : ℚ) / b := step2
  rw [ilog2]
  split
  case isTrue h =>
    exact ⟨(pow2le_true_iff _ a b hb).mp h, hkey_hi⟩
  case isFalse h =>
    have hnot : ¬ (2 : ℚ) ^ ((natLog2 a : ℤ) - natLog2 b) ≤ (a : ℚ) / b := fun hc =>
      h ((pow2le_true_iff _ a b hb).mpr hc)
    push_neg at hnot
    constructor
    · exact le_of_lt (by convert hkey_lo using 2)
    · convert hnot using 2
      ring

theorem rhe_exact (a b : ℕ) (hb : 0 < b) (hdvd : b ∣ a) : rhe a b = a / b := by
  obtain ⟨c, rfl⟩ := hdvd
  rw [rhe]
  simp [Nat.mul_mod_right, hb]

theorem mkFin_eq_fin (M : ℕ) (u : ℤ) (h0 : 0 < M) (h53 : M < 2 ^ 53)
    (hov : (M : ℚ) * (2 : ℚ) ^ u < (2 : ℚ) ^ (1024 : ℤ)) :
    mkFin M u = .fin (M : ℤ) u := by
  have hM53 : ¬ M = 2 ^ 53 := by omega
  rw [mkFin, if_neg (by omega : ¬ M = 0), if_neg hM53]
  rw [if_neg]
  rintro ⟨hu, hle⟩
  have hcast : ((M * 2 ^ u.toNat : ℕ) : ℚ) = (M : ℚ) * (2 : ℚ) ^ u := by
    push_cast [cast_pow2_toNat u hu]
    ring
  have h1 : ((2 ^ 1024 : ℕ) : ℚ) ≤ ((M * 2 ^ u.toNat : ℕ) : ℚ) := by exact_mod_cast hle
  rw [hcast] at h1
  have h2 : ((2 ^ 1024 : ℕ) : ℚ) = (2 : ℚ) ^ (1024 : ℤ) := by
    rw [Nat.cast_pow, Nat.cast_ofNat, ← zpow_natCast]
    norm_num
  rw [h2] at h1
  exact absurd hov (not_lt.mpr h1)

theorem roundPos_exact (a b M : ℕ) (t : ℤ) (ha : 0 < a) (hb : 0 < b)
    (hM : 0 < M) (hM53 : M ≤ 2 ^ 53) (ht : -1074 ≤ t)
    (hval : (a : ℚ) = (M : ℚ) * (2 : ℚ) ^ t * b)
    (hov : (M : ℚ) * (2 : ℚ) ^ t < (2 : ℚ) ^ (1024 : ℤ)) :
    ∃ (m : ℕ) (e : ℤ), roundPos a b = .fin (m : ℤ) e ∧ 0 < m ∧
      (m : ℚ) * (2 : ℚ) ^ e = (M : ℚ) * (2 : ℚ) ^ t := by
  have hbQ : (0 : ℚ) < b := by exact_mod_cast hb
  have hMQ : (1 : ℚ) ≤ M := by exact_mod_cast hM
  have hq : (a : ℚ) / b = (M : ℚ) * (2 : ℚ) ^ t := by
    rw [hval, mul_div_assoc, div_self (ne_of_gt hbQ), mul_one]
  obtain ⟨hel, her⟩ := ilog2_correct a b ha hb
  rw [hq] at hel her
  set e := ilog2 a b with hedef
  have hte : t ≤ e := by
    have h1 : (2 : ℚ) ^ t ≤ (M : ℚ) * 2 ^ t :=
      le_mul_of_one_le_left (by positivity) hMQ
    have h2 : (2 : ℚ) ^ t < (2 : ℚ) ^ (e + 1) := lt_of_le_of_lt h1 her
    have := (zpow_lt_zpow_iff_right₀ (by norm_num : (1 : ℚ) < 2)).mp h2
    omega
  have he53 : e ≤ t + 53 := by
    have hM2 : (M : ℚ) ≤ (2 : ℚ) ^ (53 : ℤ) := by
      rw [(by norm_num : (2 : ℚ) ^ (53 : ℤ) = ((2 ^ 53 : ℕ) : ℚ))]
      exact_mod_cast hM53
    have h1 : (M : ℚ) * 2 ^ t ≤ (2 : ℚ) ^ (53 : ℤ) * 2 ^ t :=
      mul_le_mul_of_nonneg_right hM2 (by positivity)
    have h2 : (2 : ℚ) ^ e ≤ (2 : ℚ) ^ (53 + t) := by
      rw [zpow_add₀ (by norm_num : (2 : ℚ) ≠ 0)]
      exact le_trans hel h1
    have := (zpow_le_zpow_iff_right₀ (by norm_num : (1 : ℚ) < 2)).mp h2
    omega
  set u : ℤ := max (e - 52) (-1074) with hudef
  have hu_ge : e - 52 ≤ u := le_max_left _ _
  have hu_ge2 : -1074 ≤ u := le_max_right _ _
  have hu_le_t1 : u ≤ t + 1 := max_le (by omega) (by omega)
  -- the exactly scaled significand
  have hN : ∃ N : ℕ, 0 < N ∧ (N : ℚ) * (2 : ℚ) ^ u = (M : ℚ) * (2 : ℚ) ^ t := by
    rcases le_or_lt u t with hut | hut
    · refine ⟨M * 2 ^ (t - u).toNat, by positivity, ?_⟩
      push_cast [cast_pow2_toNat (t - u) (by omega)]
      rw [mul_assoc, ← zpow_add₀ (by norm_num : (2 : ℚ) ≠ 0)]
      congr 2
      omega
    · have ht_eq : t = u - 1 := by omega
      have hu_eq : u = e - 52 := by
        rcases max_cases (e - 52) (-1074) with ⟨h1, _⟩ | ⟨_, h2⟩
        · exact h1
        · omega
      have hte53 : t = e - 53 := by omega
      rw [hte53] at hel
      have h2 : (2 : ℚ) ^ (53 : ℤ) ≤ (M : ℚ) := by
        have h3 := mul_le_mul_of_nonneg_right hel
          (by positivity : (0 : ℚ) ≤ (2 : ℚ) ^ (53 - e))
        rw [← zpow_add₀ (by norm_num : (2 : ℚ) ≠ 0), mul_assoc,
          ← zpow_add₀ (by norm_num : (2 : ℚ) ≠ 0)] at h3
        have e1 : e + (53 - e) = (53 : ℤ) := by ring
        have e2 : e - 53 + (53 - e) = (0 : ℤ) := by ring
        rw [e1, e2, zpow_zero, mul_one] at h3
        exact h3
      have hM_eq : M = 2 ^ 53 := by
        have h2' : ((2 ^ 53 : ℕ) : ℚ) ≤ (M : ℚ) := by
          rw [(by norm_num : ((2 ^ 53 : ℕ) : ℚ) = (2 : ℚ) ^ (53 : ℤ))]
          exact h2
        have := Nat.cast_le (α := ℚ) |>.mp h2'
        omega
      refine ⟨2 ^ 52, by positivity, ?_⟩
      have hc1 : ((2 ^ 52 : ℕ) : ℚ) = (2 : ℚ) ^ (52 : ℤ) := by norm_num
      have hc2 : (M : ℚ) = (2 : ℚ) ^ (53 : ℤ) := by rw [hM_eq]; norm_num
      rw [hc1, hc2, hte53, ← zpow_add₀ (by norm_num : (2 : ℚ) ≠ 0),
        ← zpow_add₀ (by norm_num : (2 : ℚ) ≠ 0)]
      congr 1
      omega
  obtain ⟨N, hN0, hNval⟩ := hN
  have hNQlt : (N : ℚ) < (2 : ℚ) ^ (53 : ℤ) := by
    have h1 : (N : ℚ) * (2 : ℚ) ^ u < (2 : ℚ) ^ (e + 1) := hNval ▸ her
    have h2 : (N : ℚ) < (2 : ℚ) ^ (e + 1) / (2 : ℚ) ^ u :=
      (lt_div_iff (by positivity)).mpr h1
    have h3 : (2 : ℚ) ^ (e + 1) / (2 : ℚ) ^ u = (2 : ℚ) ^ (e + 1 - u) :=
      (zpow_sub₀ (by norm_num : (2 : ℚ) ≠ 0) _ _).symm
    have h4 : (2 : ℚ) ^ (e + 1 - u) ≤ (2 : ℚ) ^ (53 : ℤ) :=
      zpow_le_zpow_right₀ (by norm_num) (by omega)
    calc (N : ℚ) < (2 : ℚ) ^ (e + 1 - u) := h3 ▸ h2
    _ ≤ (2 : ℚ) ^ (53 : ℤ) := h4
  have hN53 : N < 2 ^ 53 := by
    have : (N : ℚ) < ((2 ^ 53 : ℕ) : ℚ) := by
      rw [(by norm_num : ((2 ^ 53 : ℕ) : ℚ) = (2 : ℚ) ^ (53 : ℤ))]
      exact hNQlt
    exact_mod_cast this
  have hovN : (N : ℚ) * (2 : ℚ) ^ u < (2 : ℚ) ^ (1024 : ℤ) := hNval ▸ hov
  refine ⟨N, u, ?_, hN0, hNval⟩
  rw [roundPos]
  rcases le_or_lt 0 u with hu0 | hu0
  · have hDpos : 0 < b * 2 ^ u.toNat := by positivity
    have haN : a = b * 2 ^ u.toNat * N := by
      have hc : (a : ℚ) = ((b * 2 ^ u.toNat * N : ℕ) : ℚ) := by
        push_cast [cast_pow2_toNat u hu0]
        rw [hval, ← hNval]
        ring
      exact_mod_cast hc
    have hr : rhe a (b * 2 ^ u.toNat) = N := by
      rw [rhe_exact _ _ hDpos ⟨N, haN⟩, haN, Nat.mul_div_cancel_left _ hDpos]
    rw [if_pos hu0, hr]
    exact mkFin_eq_fin N u hN0 hN53 hovN
  · have haN : a * 2 ^ (-u).toNat = b * N := by
      have hc : ((a * 2 ^ (-u).toNat : ℕ) : ℚ) = ((b * N : ℕ) : ℚ) := by
        push_cast [cast_pow2_toNat (-u) (by omega)]
        rw [hval, ← hNval, zpow_neg]
        field_simp
        ring
      exact_mod_cast hc
    have hr : rhe (a * 2 ^ (-u).toNat) b = N := by
      rw [rhe_exact _ _ hb ⟨N, haN⟩, haN, Nat.mul_div_cancel_left _ hb]
    rw [if_neg (by omega), hr]
    exact mkFin_eq_fin N u hN0 hN53 hovN

theorem roundRat_exact (n : ℤ) (d : ℕ) (M : ℕ) (t : ℤ) (hn : 0 < n) (hd : 0 < d)
    (hM : 0 < M) (hM53 : M ≤ 2 ^ 53) (ht : -1074 ≤ t)
    (hval : (n : ℚ) = (M : ℚ) * (2 : ℚ) ^ t * d)
    (hov : (M : ℚ) * (2 : ℚ) ^ t < (2 : ℚ) ^ (1024 : ℤ)) :
    ∃ (m : ℕ) (e : ℤ), roundRat n d = .fin (m : ℤ) e ∧ 0 < m ∧
      (m : ℚ) * (2 : ℚ) ^ e = (M : ℚ) * (2 : ℚ) ^ t := by
  rw [roundRat, if_neg (by omega : ¬ n = 0), if_pos hn]
  refine roundPos_exact n.toNat d M t (by omega) hd hM hM53 ht ?_ hov
  rw [show ((n.toNat : ℕ) : ℚ) = (n : ℚ) by exact_mod_cast (Int.toNat_of_nonneg hn.le)]
  exact hval

theorem fmul_exact (m₁ : ℤ) (e₁ : ℤ) (m₂ : ℤ) (e₂ : ℤ) (M : ℕ) (t : ℤ)
    (hm₁ : 0 < m₁) (hm₂ : 0 < m₂) (hM : 0 < M) (hM53 : M ≤ 2 ^ 53) (ht : -1074 ≤ t)
    (hval : (m₁ : ℚ) * (2 : ℚ) ^ e₁ * ((m₂ : ℚ) * (2 : ℚ) ^ e₂) =
      (M : ℚ) * (2 : ℚ) ^ t)
    (hov : (M : ℚ) * (2 : ℚ) ^ t < (2 : ℚ) ^ (1024 : ℤ)) :
    ∃ (m : ℕ) (e : ℤ), fmul (.fin m₁ e₁) (.fin m₂ e₂) = .fin (m : ℤ) e ∧ 0 < m ∧
      (m : ℚ) * (2 : ℚ) ^ e = (M : ℚ) * (2 : ℚ) ^ t := by
  rw [fmul]
  have hz : (2 : ℚ) ≠ 0 := by norm_num
  split
  case isTrue hee =>
    refine roundRat_exact _ _ M t (by positivity) one_pos hM hM53 ht ?_ hov
    push_cast
    rw [show ((2 : ℚ) ^ (e₁ + e₂).toNat = (2 : ℚ) ^ (e₁ + e₂)) by
      rw [← zpow_natCast, Int.toNat_of_nonneg hee]]
    rw [← hval, zpow_add₀ hz]
    ring
  case isFalse hee =>
    push_neg at hee
    refine roundRat_exact _ _ M t (by positivity) (by positivity) hM hM53 ht ?_ hov
    push_cast
    rw [show ((2 : ℚ) ^ (-(e₁ + e₂)).toNat = (2 : ℚ) ^ (-(e₁ + e₂))) by
      rw [← zpow_natCast, Int.toNat_of_nonneg (by omega)]]
    rw [← hval, zpow_neg, zpow_add₀ hz]
    field_simp
    ring

theorem fdiv_exact (m₁ : ℤ) (e₁ : ℤ) (m₂ : ℤ) (e₂ : ℤ) (M : ℕ) (t : ℤ)
    (hm₁ : 0 < m₁) (hm₂ : 0 < m₂) (hM : 0 < M) (hM53 : M ≤ 2 ^ 53) (ht : -1074 ≤ t)
    (hval : (m₁ : ℚ) * (2 : ℚ) ^ e₁ = (M : ℚ) * (2 : ℚ) ^ t * ((m₂ : ℚ) * (2 : ℚ) ^ e₂))
    (hov : (M : ℚ) * (2 : ℚ) ^ t < (2 : ℚ) ^ (1024 : ℤ)) :
    ∃ (m : ℕ) (e : ℤ), fdiv (.fin m₁ e₁) (.fin m₂ e₂) = .fin (m : ℤ) e ∧ 0 < m ∧
      (m : ℚ) * (2 : ℚ) ^ e = (M : ℚ) * (2 : ℚ) ^ t := by
  rw [fdiv, if_neg (by omega : ¬ m₂ = 0)]
  have hz : (2 : ℚ) ≠ 0 := by norm_num
  have hns : (if 0 < m₂ then m₁ else -m₁) = m₁ := if_pos hm₂
  have h0 : (m₂.natAbs : ℤ) = m₂ := Int.natAbs_of_nonneg hm₂.le
  have hdA : ((m₂.natAbs : ℕ) : ℚ) = (m₂ : ℚ) := by
    have hc : ((m₂.natAbs : ℤ) : ℚ) = (m₂ : ℚ) := by rw [h0]
    rwa [Int.cast_natCast] at hc
  rw [hns]
  have core : (m₁ : ℚ) * (2 : ℚ) ^ (e₁ - e₂) = (M : ℚ) * (2 : ℚ) ^ t * (m₂ : ℚ) := by
    have key : (m₁ : ℚ) * (2 : ℚ) ^ (e₁ - e₂) * (2 : ℚ) ^ e₂ =
        (M : ℚ) * (2 : ℚ) ^ t * (m₂ : ℚ) * (2 : ℚ) ^ e₂ := by
      rw [mul_assoc ((m₁ : ℚ)), ← zpow_add₀ hz, show e₁ - e₂ + e₂ = e₁ by ring, hval]
      ring
    exact mul_right_cancel₀ (zpow_ne_zero e₂ hz) key
  show ∃ (m : ℕ) (e : ℤ),
    (if 0 ≤ e₁ - e₂ then roundRat (m₁ * 2 ^ (e₁ - e₂).toNat) m₂.natAbs
     else roundRat m₁ (m₂.natAbs * 2 ^ (-(e₁ - e₂)).toNat)) = JNum.fin (m : ℤ) e ∧
      0 < m ∧ (m : ℚ) * (2 : ℚ) ^ e = (M : ℚ) * (2 : ℚ) ^ t
  split
  case isTrue hee =>
    refine roundRat_exact _ _ M t (by positivity) (Int.natAbs_pos.mpr (by omega)) hM hM53 ht ?_ hov
    push_cast
    rw [hdA]
    rw [show ((2 : ℚ) ^ (e₁ - e₂).toNat = (2 : ℚ) ^ (e₁ - e₂)) by
      rw [← zpow_natCast, Int.toNat_of_nonneg hee]]
    exact core
  case isFalse hee =>
    push_neg at hee
    refine roundRat_exact m₁ (m₂.natAbs * 2 ^ (-(e₁ - e₂)).toNat) M t hm₁
      (by
        have := Int.natAbs_pos.mpr (show m₂ ≠ 0 by omega)
        positivity)
      hM hM53 ht ?_ hov
    push_cast
    rw [hdA]
    rw [show ((2 : ℚ) ^ (-(e₁ - e₂)).toNat = (2 : ℚ) ^ (-(e₁ - e₂))) by
      rw [← zpow_natCast, Int.toNat_of_nonneg (by omega)]]
    calc (m₁ : ℚ)
        = (m₁ : ℚ) * ((2 : ℚ) ^ (e₁ - e₂) * (2 : ℚ) ^ (-(e₁ - e₂))) := by
          rw [← zpow_add₀ hz, show e₁ - e₂ + -(e₁ - e₂) = (0 : ℤ) by ring, zpow_zero,
            mul_one]
    _ = (m₁ : ℚ) * (2 : ℚ) ^ (e₁ - e₂) * (2 : ℚ) ^ (-(e₁ - e₂)) := by ring
    _ = (M : ℚ) * (2 : ℚ) ^ t * (m₂ : ℚ) * (2 : ℚ) ^ (-(e₁ - e₂)) := by rw [core]
    _ = (M : ℚ) * (2 : ℚ) ^ t * ((m₂ : ℚ) * (2 : ℚ) ^ (-(e₁ - e₂))) := by ring

theorem floor_fin_int (m e w : ℤ) (h : (m : ℚ) * (2 : ℚ) ^ e = (w : ℚ)) :
    jsFloorBigInt (.fin m e) = some w := by
  rw [jsFloorBigInt]
  congr 1
  split
  case isTrue he =>
    have hc : ((m * 2 ^ e.toNat : ℤ) : ℚ) = (w : ℚ) := by
      push_cast
      rw [show ((2 : ℚ) ^ e.toNat = (2 : ℚ) ^ e) by
        rw [← zpow_natCast, Int.toNat_of_nonneg he]]
      exact h
    exact_mod_cast hc
  case isFalse he =>
    push_neg at he
    have hm : m = w * 2 ^ (-e).toNat := by
      have hc : (m : ℚ) = (w : ℚ) * ((2 ^ (-e).toNat : ℤ) : ℚ) := by
        push_cast
        rw [show ((2 : ℚ) ^ (-e).toNat = (2 : ℚ) ^ (-e)) by
          rw [← zpow_natCast, Int.toNat_of_nonneg (by omega)]]
        have h2 := congrArg (fun q : ℚ => q * (2 : ℚ) ^ (-e)) h
        simp only at h2
        rw [mul_assoc, ← zpow_add₀ (by norm_num : (2 : ℚ) ≠ 0),
          show e + -e = (0 : ℤ) by ring, zpow_zero, mul_one] at h2
        exact h2
      exact_mod_cast hc
    rw [hm, Int.mul_fdiv_cancel _ (by positivity)]

/-! ## C4 — tier round trips -/

/-- Round trip through one tier with an exactly-representable scale: for
`x = k * s ≤ 2^53` the conversions `Number(x) / Number(S)` and
`BigInt(Math.floor(a * Number(S)))` are all exact. -/
theorem tier_roundtrip (S : ℤ) (s : ℕ) (hSs : S = (s : ℤ)) (k : ℕ)
    (hk : 0 < k) (hs : 0 < s) (hks : k * s ≤ 2 ^ 53) :
    jsFloorBigInt (fmul (fdiv (jsNumber ((k * s : ℕ) : ℤ)) (jsNumber S)) (jsNumber S)) =
      some ((k * s : ℕ) : ℤ) := by
  have hz : (2 : ℚ) ≠ 0 := by norm_num
  have hks0 : 0 < k * s := by positivity
  have hs53 : s ≤ 2 ^ 53 := le_trans (Nat.le_mul_of_pos_left s hk) hks
  have hbig : ∀ q : ℕ, q ≤ 2 ^ 53 → (q : ℚ) * (2 : ℚ) ^ (0 : ℤ) < (2 : ℚ) ^ (1024 : ℤ) := by
    intro q hq
    rw [zpow_zero, mul_one]
    calc (q : ℚ) ≤ ((2 ^ 53 : ℕ) : ℚ) := by exact_mod_cast hq
    _ < (2 : ℚ) ^ (1024 : ℤ) := by norm_num
  obtain ⟨m₁, e₁, hA, hm₁, hv₁⟩ :=
    roundRat_exact ((k * s : ℕ) : ℤ) 1 (k * s) 0 (by exact_mod_cast hks0) one_pos
      hks0 hks (by norm_num)
      (by push_cast; rw [zpow_zero]; ring) (hbig _ hks)
  obtain ⟨m₂, e₂, hB, hm₂, hv₂⟩ :=
    roundRat_exact ((s : ℕ) : ℤ) 1 s 0 (by exact_mod_cast hs) one_pos
      hs hs53 (by norm_num)
      (by push_cast; rw [zpow_zero]; ring) (hbig _ hs53)
  rw [zpow_zero, mul_one] at hv₁ hv₂
  have hk53 : k ≤ 2 ^ 53 := le_trans (Nat.le_mul_of_pos_right k hs) hks
  obtain ⟨m₃, e₃, hQ, hm₃, hv₃⟩ :=
    fdiv_exact m₁ e₁ m₂ e₂ k 0 (by exact_mod_cast hm₁) (by exact_mod_cast hm₂)
      hk hk53 (by norm_num)
      (by
        push_cast
        rw [hv₁, hv₂, zpow_zero]
        push_cast
        ring)
      (hbig _ hk53)
  rw [zpow_zero, mul_one] at hv₃
  obtain ⟨m₄, e₄, hP, hm₄, hv₄⟩ :=
    fmul_exact m₃ e₃ m₂ e₂ (k * s) 0 (by exact_mod_cast hm₃) (by exact_mod_cast hm₂)
      hks0 hks (by norm_num)
      (by
        have hv₃' : ((m₃ : ℤ) : ℚ) * (2 : ℚ) ^ e₃ = ((k : ℤ) : ℚ) := by exact_mod_cast hv₃
        have hv₂' : ((m₂ : ℤ) : ℚ) * (2 : ℚ) ^ e₂ = ((s : ℤ) : ℚ) := by exact_mod_cast hv₂
        rw [hv₃', hv₂', zpow_zero]
        push_cast
        ring)
      (hbig _ hks)
  rw [zpow_zero, mul_one] at hv₄
  rw [show jsNumber ((k * s : ℕ) : ℤ) = roundRat ((k * s : ℕ) : ℤ) 1 from rfl,
    show jsNumber S = roundRat ((s : ℕ) : ℤ) 1 by rw [jsNumber, hSs],
    hA, hB, hQ, hP]
  refine floor_fin_int _ _ _ ?_
  push_cast
  push_cast at hv₄
  rw [hv₄]

/-- Claim C4 (amended): for the four tiers whose scale factor is exactly
representable in binary64 (TGas 10¹², GGas 10⁹, mNEAR 10²¹, μNEAR 10¹⁸),
`fromTier (toTier x)` recovers every exact multiple `x = k·s ≤ 2^53`
exactly.  The NEAR tier's effective scale is `NEAR_UNITS.NEAR =
BigInt(10 ** 24)` — the binary64 approximation 999999999999999983222784 of
10²⁴ — and the round trip holds at that effective scale itself. -/
theorem claim4_amended_roundtrips (k : ℕ) (hk : 0 < k) :
    (k * 10 ^ 12 ≤ 2 ^ 53 →
      gasUtils_fromTGas (gasUtils_toTGas ((k * 10 ^ 12 : ℕ) : ℤ)) =
        some ((k * 10 ^ 12 : ℕ) : ℤ)) ∧
    (k * 10 ^ 9 ≤ 2 ^ 53 →
      gasUtils_fromGGas (gasUtils_toGGas ((k * 10 ^ 9 : ℕ) : ℤ)) =
        some ((k * 10 ^ 9 : ℕ) : ℤ)) ∧
    (k * 10 ^ 21 ≤ 2 ^ 53 →
      nearUtils_fromMilliNEAR (nearUtils_toMilliNEAR ((k * 10 ^ 21 : ℕ) : ℤ)) =
        some ((k * 10 ^ 21 : ℕ) : ℤ)) ∧
    (k * 10 ^ 18 ≤ 2 ^ 53 →
      nearUtils_fromMicroNEAR (nearUtils_toMicroNEAR ((k * 10 ^ 18 : ℕ) : ℤ)) =
        some ((k * 10 ^ 18 : ℕ) : ℤ)) ∧
    nearUtils_fromNEAR (nearUtils_toNEAR NEAR_UNITS_NEAR) = some NEAR_UNITS_NEAR := by
  refine ⟨?_, ?_, ?_, ?_, by decide⟩ <;> intro hks
  · exact tier_roundtrip GAS_UNITS_TGAS (10 ^ 12) (by decide) k hk (by positivity) hks
  · exact tier_roundtrip GAS_UNITS_GGAS (10 ^ 9) (by decide) k hk (by positivity) hks
  · exact tier_roundtrip NEAR_UNITS_MILLI_NEAR (10 ^ 21) (by decide) k hk (by positivity) hks
  · exact tier_roundtrip NEAR_UNITS_MICRO_NEAR (10 ^ 18) (by decide) k hk (by positivity) hks

/-- Claim C4 (counterexample): 10²⁴ is an exact multiple of the NEAR tier's
specified scale factor 10²⁴, yet `fromNEAR (toNEAR (10^24))` returns the
effective scale 999999999999999983222784 ≠ 10²⁴. -/
theorem claim4_counterexample :
    nearUtils_fromNEAR (nearUtils_toNEAR (10 ^ 24)) = some 999999999999999983222784 ∧
    (999999999999999983222784 : ℤ) ≠ 10 ^ 24 := by
  exact ⟨by decide, by decide⟩

theorem claim4_witness :
    gasUtils_fromTGas (gasUtils_toTGas ((25 * 10 ^ 12 : ℕ) : ℤ)) =
      some ((25 * 10 ^ 12 : ℕ) : ℤ) :=
  (claim4_amended_roundtrips 25 (by decide)).1 (by norm_num)

/-! ## C9 — parsed canonical quantities are non-negative

Every double built on the string-parsing path satisfies `NonnegF`, and
flooring such a double yields a non-negative BigInt. -/

theorem mkFin_cases (M : ℕ) (u : ℤ) :
    (∃ (m : ℕ) (e : ℤ), mkFin M u = .fin (m : ℤ) e) ∨ mkFin M u = .inf true := by
  rw [mkFin]
  split
  · exact .inl ⟨0, 0, rfl⟩
  · split
    · split
      · exact .inr rfl
      · exact .inl ⟨_, _, rfl⟩
    · split
      · exact .inr rfl
      · exact .inl ⟨_, _, rfl⟩

theorem mkFin_nonnegF (M : ℕ) (u : ℤ) : NonnegF (mkFin M u) := by
  intro m e h
  rcases mkFin_cases M u with ⟨m', e', hf⟩ | hf <;> rw [hf] at h <;> cases h
  positivity

theorem roundPos_nonnegF (a b : ℕ) : NonnegF (roundPos a b) := by
  rw [roundPos]
  exact mkFin_nonnegF _ _

theorem roundRat_nonnegF (n : ℤ) (d : ℕ) (hn : 0 ≤ n) : NonnegF (roundRat n d) := by
  rw [roundRat]
  split
  · intro m e h
    cases h
    omega
  · split
    · exact roundPos_nonnegF _ _
    · omega

theorem amountVal_nonnegF (ds : List ℕ) (fs : Option (List ℕ)) :
    NonnegF (amountVal ds fs) := by
  cases fs with
  | none => exact roundRat_nonnegF _ _ (by positivity)
  | some f => exact roundRat_nonnegF _ _ (by positivity)

theorem jsNumber_nonnegF (S : ℤ) (hS : 0 ≤ S) : NonnegF (jsNumber S) :=
  roundRat_nonnegF _ _ hS

theorem fmul_nonnegF (x y : JNum) (hx : NonnegF x) (hy : NonnegF y) :
    NonnegF (fmul x y) := by
  cases x with
  | fin m₁ e₁ =>
    cases y with
    | fin m₂ e₂ =>
      have h₁ := hx m₁ e₁ rfl
      have h₂ := hy m₂ e₂ rfl
      rw [fmul]
      split
      · exact roundRat_nonnegF _ _ (by positivity)
      · exact roundRat_nonnegF _ _ (by positivity)
    | inf p =>
      rw [fmul]
      split <;> intro m e h <;> cases h
    | nan => intro m e h; cases h
  | inf p =>
    cases y with
    | fin m₂ e₂ =>
      rw [fmul]
      split <;> intro m e h <;> cases h
    | inf q => intro m e h; cases h
    | nan => intro m e h; cases h
  | nan =>
    cases y <;> intro m e h <;> cases h

theorem floorOut_nonneg (x : JNum) (hx : NonnegF x) (v : ℤ)
    (h : floorOut x = .ok v) : 0 ≤ v := by
  cases x with
  | fin m e =>
    have hm := hx m e rfl
    rw [floorOut, jsFloorBigInt] at h
    simp only [POut.ok.injEq] at h
    subst h
    split
    · positivity
    · exact Int.fdiv_nonneg hm (by positivity)
  | inf p =>
    rw [floorOut, show jsFloorBigInt (JNum.inf p) = none from rfl] at h
    cases h
  | nan =>
    rw [floorOut, show jsFloorBigInt JNum.nan = none from rfl] at h
    cases h

/-- Claim C9: every canonical quantity produced by a successful parse is a
non-negative integer, provided the input satisfies the claim's precondition
(any string, or a non-negative raw integer); input precision finer than one
base unit is floored away, never yielding a fraction (the output type is ℤ). -/
theorem claim9_nonneg (inp : JsInput) (v : ℤ)
    (hpre : match inp with | .big z => 0 ≤ z | .str _ => True) :
    ((gasParse inp).1 = .ok v → 0 ≤ v) ∧ ((nearParse inp).1 = .ok v → 0 ≤ v) := by
  cases inp with
  | big z =>
    refine ⟨?_, ?_⟩ <;> intro h <;>
      simp only [gasParse, nearParse, POut.ok.injEq] at h <;> omega
  | str cs =>
    constructor
    · intro h
      rw [gasParse] at h
      split at h
      case isTrue =>
        simp only at h
        rw [gasTransform] at h
        split at h
        case h_1 => cases h
        case h_2 ds fs u heq =>
          dsimp only at h
          split at h
          · exact floorOut_nonneg _
              (fmul_nonnegF _ _ (amountVal_nonnegF _ _) (jsNumber_nonnegF _ (by decide)))
              v h
          · split at h
            · exact floorOut_nonneg _
                (fmul_nonnegF _ _ (amountVal_nonnegF _ _) (jsNumber_nonnegF _ (by decide)))
                v h
            · split at h
              · exact floorOut_nonneg _ (amountVal_nonnegF _ _) v h
              · cases h
      case isFalse => cases h
    · intro h
      rw [nearParse] at h
      split at h
      case isTrue =>
        simp only at h
        rw [nearTransform] at h
        split at h
        case h_1 => cases h
        case h_2 ds fs u heq =>
          dsimp only at h
          split at h
          · exact floorOut_nonneg _
              (fmul_nonnegF _ _ (amountVal_nonnegF _ _) (jsNumber_nonnegF _ (by decide)))
              v h
          · split at h
            · exact floorOut_nonneg _
                (fmul_nonnegF _ _ (amountVal_nonnegF _ _) (jsNumber_nonnegF _ (by decide)))
                v h
            · split at h
              · exact floorOut_nonneg _
                  (fmul_nonnegF _ _ (amountVal_nonnegF _ _) (jsNumber_nonnegF _ (by decide)))
                  v h
              · split at h
                · exact floorOut_nonneg _ (amountVal_nonnegF _ _) v h
                · cases h
      case isFalse => cases h

theorem claim9_witness : (0 : ℤ) ≤ 25000000000000 :=
  (claim9_nonneg (.str (jstr "25 TGas")) 25000000000000 trivial).1 (by decide)

/-! ## C8 — reachability of the UnknownUnit branch

For the GAS kind all unit spellings are ASCII, and any code point whose
regex canonicalization coincides with an ASCII letter's lower-cases to the
matching switch key, so the defensive `default` branch is unreachable.  For
the TOKEN kind this fails: the micro sign µ (U+00B5) canonicalizes to the
Greek capital mu like μ (U+03BC) does — so the regex accepts it — but
`toLowerCase` leaves µ fixed, missing the Greek-μ switch keys. -/

theorem canonC_to_lowerC (c X : ℕ) (h1 : 65 ≤ X) (h2 : X ≤ 90) (h : canonC c = X) :
    lowerC c = X + 32 := by
  unfold canonC at h
  unfold lowerC
  split at h
  · split <;> (try split) <;> omega
  · split at h
    · split <;> (try split) <;> omega
    · split <;> (try split) <;> omega

theorem map_lower_of_canon_list (u : List ℕ) (ws : List ℕ)
    (hws : ws.all (fun X => decide (65 ≤ X) && decide (X ≤ 90)) = true)
    (h : u.map canonC = ws) : u.map lowerC = ws.map (fun X => X + 32) := by
  induction ws generalizing u with
  | nil =>
    cases u with
    | nil => rfl
    | cons a t => simp at h
  | cons X ws ih =>
    cases u with
    | nil => simp at h
    | cons c t =>
      simp only [List.map, List.cons.injEq] at h
      simp only [List.all_cons, Bool.and_eq_true, decide_eq_true_eq] at hws
      simp only [List.map, List.cons.injEq]
      exact ⟨canonC_to_lowerC c X hws.1.1 hws.1.2 h.1, ih t hws.2 h.2⟩

theorem qtyMatch_unit (units : List (List ℕ)) (cs ds : List ℕ) (fs : Option (List ℕ))
    (u : List ℕ) (h : qtyMatch units cs = some (ds, fs, u)) :
    ∃ w ∈ units, u.map canonC = w.map canonC := by
  rw [qtyMatch] at h
  dsimp only at h
  split at h
  · cases h
  · split at h
    · split at h
      · cases h
      · split at h
        case isTrue hany =>
          simp only [Option.some.injEq, Prod.mk.injEq] at h
          obtain ⟨-, -, hu⟩ := h
          subst hu
          simpa using hany
        case isFalse => cases h
    · split at h
      case isTrue hany =>
        simp only [Option.some.injEq, Prod.mk.injEq] at h
        obtain ⟨-, -, hu⟩ := h
        subst hu
        simpa using hany
      case isFalse => cases h

theorem floorOut_ne_unknown (x : JNum) (m : List ℕ) :
    floorOut x ≠ .err (.unknownUnit m) := by
  rw [floorOut]
  split <;> simp

/-- Claim C8 (amended): for kind GAS the `UnknownUnit` default branch really
is unreachable — no string input whatsoever can produce it — but for kind
TOKEN it is reachable: `"1 µNEAR"` (micro sign U+00B5) passes the
case-insensitive regex, yet its lower-cased unit capture matches no switch
key, so the parse fails with the UnknownUnit error. -/
theorem claim8_unknown_unit (cs msg : List ℕ) :
    (gasParse (.str cs)).1 ≠ .err (.unknownUnit msg) ∧
    (nearParse (.str (jstr "1 µNEAR"))).1 = .err (.unknownUnit nearUnknownMsg) := by
  refine ⟨?_, by decide⟩
  intro h
  rw [gasParse] at h
  split at h
  case isFalse => simp at h
  case isTrue hsome =>
    simp only at h
    rw [gasTransform] at h
    split at h
    case h_1 => simp at h
    case h_2 ds fs u heq =>
      dsimp only at h
      obtain ⟨w, hwmem, hwc⟩ := qtyMatch_unit _ _ _ _ _ heq
      simp only [gasUnitStrs, List.mem_cons, List.not_mem_nil, or_false] at hwmem
      rcases hwmem with rfl | rfl | rfl
      · have hl : u.map lowerC = jstr "tgas" := by
          rw [map_lower_of_canon_list u [84, 71, 65, 83] (by decide)
            (by rw [hwc]; decide)]
          decide
        rw [hl, if_pos rfl] at h
        exact floorOut_ne_unknown _ _ h
      · have hl : u.map lowerC = jstr "ggas" := by
          rw [map_lower_of_canon_list u [71, 71, 65, 83] (by decide)
            (by rw [hwc]; decide)]
          decide
        rw [hl, if_neg (by decide), if_pos rfl] at h
        exact floorOut_ne_unknown _ _ h
      · have hl : u.map lowerC = jstr "gas" := by
          rw [map_lower_of_canon_list u [71, 65, 83] (by decide)
            (by rw [hwc]; decide)]
          decide
        rw [hl, if_neg (by decide), if_neg (by decide), if_pos rfl] at h
        exact floorOut_ne_unknown _ _ h

/-- Claim C8 (counterexample): an input causing the parse to fail with
UnknownUnit, which the claim asserts cannot exist. -/
theorem claim8_counterexample :
    (nearParse (.str (jstr "1 µNEAR"))).1 = .err (.unknownUnit nearUnknownMsg) := by
  decide

/-! ## C1 — parsing `"<numeral> <unit>"`

The matcher is shown to succeed on every rendered well-formed numeral
followed by a space and a unit spelling, extracting exactly the numeral's
digit groups and the unit; the parse result is then the floored binary64
product of `parseFloat`'s rounding of the numeral with the rounded scale. -/

theorem takeWhile_app (p : ℕ → Bool) (l : List ℕ) (c : ℕ) (r : List ℕ)
    (hl : ∀ x ∈ l, p x = true) (hc : p c = false) :
    (l ++ c :: r).takeWhile p = l ∧ (l ++ c :: r).dropWhile p = c :: r := by
  induction l with
  | nil => simp [List.takeWhile_cons, List.dropWhile_cons, hc]
  | cons a t ih =>
    have ha : p a = true := hl a (by simp)
    obtain ⟨ih1, ih2⟩ := ih (fun x hx => hl x (by simp [hx]))
    simp [List.takeWhile_cons, List.dropWhile_cons, ha, ih1, ih2]

theorem dropSpace (u : List ℕ) (hu : unitOK u = true) :
    (32 :: u).dropWhile (fun c => isSpaceC c) = u := by
  cases u with
  | nil => simp [unitOK] at hu
  | cons c t =>
    simp only [unitOK, Bool.and_eq_true, Bool.not_eq_true'] at hu
    simp [List.dropWhile_cons, show isSpaceC 32 = true by decide, hu.1.2]

theorem Numeral.WF_spec (n : Numeral) (h : n.WF) :
    n.intDigits ≠ [] ∧ (∀ c ∈ n.intDigits, isDigitC c = true) ∧
      ∀ f, n.fracDigits = some f → f ≠ [] ∧ ∀ c ∈ f, isDigitC c = true := by
  obtain ⟨ints, fracs⟩ := n
  rw [Numeral.WF, Numeral.wfB] at h
  cases fracs with
  | none =>
    simp only [Bool.and_eq_true, Bool.not_eq_true', List.all_eq_true] at h
    refine ⟨?_, fun c hc => h.1.2 c hc, by rintro f ⟨⟩⟩
    intro hnil
    subst hnil
    simp at h
  | some f =>
    simp only [Bool.and_eq_true, Bool.not_eq_true', List.all_eq_true] at h
    refine ⟨?_, fun c hc => h.1.2 c hc, ?_⟩
    · intro hnil
      subst hnil
      simp at h
    · rintro f' hf'
      cases hf'
      refine ⟨?_, fun c hc => h.2.2 c hc⟩
      intro hnil
      subst hnil
      simp at h

theorem qtyMatch_render (units : List (List ℕ)) (n : Numeral) (hn : n.WF)
    (u : List ℕ) (hofu : unitOK u = true)
    (hany : units.any (fun w => u.map canonC = w.map canonC) = true) :
    qtyMatch units (qtyStr n u) = some (n.intDigits, n.fracDigits, u) := by
  obtain ⟨hne, hdig, hfrac⟩ := Numeral.WF_spec n hn
  obtain ⟨ints, fracs⟩ := n
  dsimp only at hne hdig hfrac ⊢
  cases fracs with
  | none =>
    have hq : qtyStr ⟨ints, none⟩ u = ints ++ 32 :: u := by
      simp [qtyStr, Numeral.render]
    obtain ⟨ht, hd⟩ := takeWhile_app (fun c => isDigitC c) ints 32 u hdig (by decide)
    rw [hq, qtyMatch]
    dsimp only
    rw [ht, hd, if_neg (by simpa [List.isEmpty_iff] using hne)]
    split
    case h_1 r2 heq =>
      cases heq
    case h_2 r hne2 =>
      rw [dropSpace u hofu, if_pos hany]
  | some f =>
    obtain ⟨hf, hfd⟩ := hfrac f rfl
    have hq : qtyStr ⟨ints, some f⟩ u = ints ++ 46 :: (f ++ 32 :: u) := by
      simp [qtyStr, Numeral.render]
    obtain ⟨ht, hd⟩ :=
      takeWhile_app (fun c => isDigitC c) ints 46 (f ++ 32 :: u) hdig (by decide)
    obtain ⟨ht2, hd2⟩ := takeWhile_app (fun c => isDigitC c) f 32 u hfd (by decide)
    rw [hq, qtyMatch]
    dsimp only
    rw [ht, hd, if_neg (by simpa [List.isEmpty_iff] using hne)]
    split
    case h_1 r2 heq =>
      injection heq with h1 h2
      subst h2
      rw [ht2, hd2, if_neg (by simpa [List.isEmpty_iff] using hf),
        dropSpace u hofu, if_pos hany]
    case h_2 hno =>
      exact (hno (f ++ 32 :: u) rfl).elim

/-- The parse of a rendered quantity string, resolved to the transform's
unit dispatch (GAS kind). -/
theorem gasParse_render (n : Numeral) (hn : n.WF) (u : List ℕ)
    (hofu : unitOK u = true)
    (hany : gasUnitStrs.any (fun w => u.map canonC = w.map canonC) = true) :
    (gasParse (.str (qtyStr n u))).1 =
      (if u.map lowerC = jstr "tgas" then
        floorOut (fmul n.amount (jsNumber GAS_UNITS_TGAS))
      else if u.map lowerC = jstr "ggas" then
        floorOut (fmul n.amount (jsNumber GAS_UNITS_GGAS))
      else if u.map lowerC = jstr "gas" then floorOut n.amount
      else .err (.unknownUnit gasUnknownMsg)) := by
  have hm := qtyMatch_render gasUnitStrs n hn u hofu hany
  rw [gasParse, if_pos (by rw [hm]; rfl)]
  simp only
  rw [gasTransform, hm]
  rfl

/-- The parse of a rendered quantity string, resolved to the transform's
unit dispatch (TOKEN kind). -/
theorem nearParse_render (n : Numeral) (hn : n.WF) (u : List ℕ)
    (hofu : unitOK u = true)
    (hany : nearUnitStrs.any (fun w => u.map canonC = w.map canonC) = true) :
    (nearParse (.str (qtyStr n u))).1 =
      (if u.map lowerC = jstr "near" then
        floorOut (fmul n.amount (jsNumber NEAR_UNITS_NEAR))
      else if u.map lowerC = jstr "mnear" ∨ u.map lowerC = jstr "millinear" then
        floorOut (fmul n.amount (jsNumber NEAR_UNITS_MILLI_NEAR))
      else if u.map lowerC = jstr "μnear" ∨ u.map lowerC = jstr "micronear" then
        floorOut (fmul n.amount (jsNumber NEAR_UNITS_MICRO_NEAR))
      else if u.map lowerC = jstr "yoctonear" ∨ u.map lowerC = jstr "yocto" then
        floorOut n.amount
      else .err (.unknownUnit nearUnknownMsg)) := by
  have hm := qtyMatch_render nearUnitStrs n hn u hofu hany
  rw [nearParse, if_pos (by rw [hm]; rfl)]
  simp only
  rw [nearTransform, hm]
  rfl

theorem digitsFuel_correct (f : ℕ) : ∀ n, n < f →
    natOfDigits (digitsFuel f n) = n ∧ digitsFuel f n ≠ [] ∧
      ∀ c ∈ digitsFuel f n, isDigitC c = true := by
  induction f with
  | zero => intro n h; omega
  | succ f ih =>
    intro n hn
    rw [digitsFuel]
    split
    case isTrue h9 =>
      refine ⟨by simp [natOfDigits], by simp, ?_⟩
      intro c hc
      simp only [List.mem_singleton] at hc
      subst hc
      simp only [isDigitC, decide_eq_true_eq]
      omega
    case isFalse h9 =>
      have h10 : n / 10 < f := by omega
      obtain ⟨ih1, ih2, ih3⟩ := ih (n / 10) h10
      refine ⟨?_, by simp, ?_⟩
      · rw [natOfDigits, List.foldl_append]
        rw [natOfDigits] at ih1
        simp only [List.foldl_cons, List.foldl_nil, ih1]
        omega
      · intro c hc
        rcases List.mem_append.mp hc with hc | hc
        · exact ih3 c hc
        · simp only [List.mem_singleton] at hc
          subst hc
          simp only [isDigitC, decide_eq_true_eq]
          omega

theorem natOfDigits_natDecChars (k : ℕ) : natOfDigits (natDecChars k) = k :=
  (digitsFuel_correct (k + 1) k (by omega)).1

theorem natNumeral_wf (k : ℕ) : (natNumeral k).WF := by
  obtain ⟨h1, h2, h3⟩ := digitsFuel_correct (k + 1) k (by omega)
  obtain ⟨a, t, hat⟩ := List.exists_cons_of_ne_nil h2
  rw [Numeral.WF, Numeral.wfB]
  simp only [natNumeral, natDecChars, Bool.and_eq_true, Bool.not_eq_true',
    List.all_eq_true]
  exact ⟨⟨by rw [hat]; rfl, h3⟩, by trivial⟩

theorem natNumeral_amount (k : ℕ) : (natNumeral k).amount = roundRat (k : ℤ) 1 := by
  show amountVal (natDecChars k) none = _
  show roundRat ((natOfDigits (natDecChars k) : ℕ) : ℤ) 1 = _
  rw [natOfDigits_natDecChars]

theorem floorOut_eq_ok (x : JNum) (z : ℤ) (h : jsFloorBigInt x = some z) :
    floorOut x = .ok z := by
  rw [floorOut, h]

/-- Exact scaling: an integer amount `k` with `k * s ≤ 2^53` times an
exactly representable scale `s` floors to exactly `k * s`. -/
theorem scale_exact (S : ℤ) (s : ℕ) (hSs : S = (s : ℤ)) (k : ℕ) (hk : 0 < k)
    (hs : 0 < s) (hks : k * s ≤ 2 ^ 53) :
    floorOut (fmul (roundRat (k : ℤ) 1) (jsNumber S)) = .ok ((k * s : ℕ) : ℤ) := by
  have hks0 : 0 < k * s := by positivity
  have hs53 : s ≤ 2 ^ 53 := le_trans (Nat.le_mul_of_pos_left s hk) hks
  have hk53 : k ≤ 2 ^ 53 := le_trans (Nat.le_mul_of_pos_right k hs) hks
  have hbig : ∀ q : ℕ, q ≤ 2 ^ 53 → (q : ℚ) * (2 : ℚ) ^ (0 : ℤ) < (2 : ℚ) ^ (1024 : ℤ) := by
    intro q hq
    rw [zpow_zero, mul_one]
    calc (q : ℚ) ≤ ((2 ^ 53 : ℕ) : ℚ) := by exact_mod_cast hq
    _ < (2 : ℚ) ^ (1024 : ℤ) := by norm_num
  obtain ⟨m₁, e₁, hA, hm₁, hv₁⟩ :=
    roundRat_exact (k : ℤ) 1 k 0 (by exact_mod_cast hk) one_pos hk hk53 (by norm_num)
      (by push_cast; rw [zpow_zero]; ring) (hbig _ hk53)
  obtain ⟨m₂, e₂, hB, hm₂, hv₂⟩ :=
    roundRat_exact ((s : ℕ) : ℤ) 1 s 0 (by exact_mod_cast hs) one_pos hs hs53
      (by norm_num) (by push_cast; rw [zpow_zero]; ring) (hbig _ hs53)
  rw [zpow_zero, mul_one] at hv₁ hv₂
  obtain ⟨m₄, e₄, hP, hm₄, hv₄⟩ :=
    fmul_exact m₁ e₁ m₂ e₂ (k * s) 0 (by exact_mod_cast hm₁) (by exact_mod_cast hm₂)
      hks0 hks (by norm_num)
      (by
        have hv₁' : ((m₁ : ℤ) : ℚ) * (2 : ℚ) ^ e₁ = ((k : ℤ) : ℚ) := by exact_mod_cast hv₁
        have hv₂' : ((m₂ : ℤ) : ℚ) * (2 : ℚ) ^ e₂ = ((s : ℤ) : ℚ) := by exact_mod_cast hv₂
        rw [hv₁', hv₂', zpow_zero]
        push_cast
        ring)
      (hbig _ hks)
  rw [zpow_zero, mul_one] at hv₄
  rw [show jsNumber S = roundRat ((s : ℕ) : ℤ) 1 by rw [jsNumber, hSs], hA, hB, hP]
  refine floorOut_eq_ok _ _ (floor_fin_int _ _ _ ?_)
  push_cast
  push_cast at hv₄
  rw [hv₄]

/-- Exact base-unit amount: an integer `k ≤ 2^53` floors to itself. -/
theorem base_exact (k : ℕ) (hk : 0 < k) (hks : k ≤ 2 ^ 53) :
    floorOut (roundRat (k : ℤ) 1) = .ok ((k : ℕ) : ℤ) := by
  obtain ⟨m₁, e₁, hA, hm₁, hv₁⟩ :=
    roundRat_exact (k : ℤ) 1 k 0 (by exact_mod_cast hk) one_pos hk hks (by norm_num)
      (by push_cast; rw [zpow_zero]; ring)
      (by
        rw [zpow_zero, mul_one]
        calc (k : ℚ) ≤ ((2 ^ 53 : ℕ) : ℚ) := by exact_mod_cast hks
        _ < (2 : ℚ) ^ (1024 : ℤ) := by norm_num)
  rw [zpow_zero, mul_one] at hv₁
  rw [hA]
  refine floorOut_eq_ok _ _ (floor_fin_int _ _ _ ?_)
  push_cast
  rw [hv₁]

/-- Claim C1 (amended): for every well-formed numeral `n` of the grammar and
every unit spelling, parsing `"<n> <u>"` returns
`BigInt(Math.floor(parseFloat(n) * Number(scale)))` — the floor of the
binary64 product of the rounded numeral with the rounded scale constant
(for the base units Gas and yocto/yoctoNEAR, `BigInt(Math.floor(parseFloat(n)))`),
throwing a RangeError only when that product is infinite.  For integer
numerals `k` the result is exactly `k * s` whenever `k * s ≤ 2^53` and the
scale `s` is exactly representable — all units except the whole-NEAR one,
whose effective scale is the double approximation of 10²⁴. -/
theorem claim1_amended (n : Numeral) (hn : n.WF) :
    ((gasParse (.str (qtyStr n (jstr "TGas")))).1 =
      floorOut (fmul n.amount (jsNumber GAS_UNITS_TGAS))) ∧
    ((gasParse (.str (qtyStr n (jstr "GGas")))).1 =
      floorOut (fmul n.amount (jsNumber GAS_UNITS_GGAS))) ∧
    ((gasParse (.str (qtyStr n (jstr "Gas")))).1 = floorOut n.amount) ∧
    ((nearParse (.str (qtyStr n (jstr "NEAR")))).1 =
      floorOut (fmul n.amount (jsNumber NEAR_UNITS_NEAR))) ∧
    ((nearParse (.str (qtyStr n (jstr "mNEAR")))).1 =
      floorOut (fmul n.amount (jsNumber NEAR_UNITS_MILLI_NEAR))) ∧
    ((nearParse (.str (qtyStr n (jstr "milliNEAR")))).1 =
      floorOut (fmul n.amount (jsNumber NEAR_UNITS_MILLI_NEAR))) ∧
    ((nearParse (.str (qtyStr n (jstr "μNEAR")))).1 =
      floorOut (fmul n.amount (jsNumber NEAR_UNITS_MICRO_NEAR))) ∧
    ((nearParse (.str (qtyStr n (jstr "microNEAR")))).1 =
      floorOut (fmul n.amount (jsNumber NEAR_UNITS_MICRO_NEAR))) ∧
    ((nearParse (.str (qtyStr n (jstr "yoctoNEAR")))).1 = floorOut n.amount) ∧
    ((nearParse (.str (qtyStr n (jstr "yocto")))).1 = floorOut n.amount) ∧
    (∀ k : ℕ, 0 < k → k * 10 ^ 12 ≤ 2 ^ 53 →
      (gasParse (.str (qtyStr (natNumeral k) (jstr "TGas")))).1 =
        .ok ((k * 10 ^ 12 : ℕ) : ℤ)) ∧
    (∀ k : ℕ, 0 < k → k * 10 ^ 9 ≤ 2 ^ 53 →
      (gasParse (.str (qtyStr (natNumeral k) (jstr "GGas")))).1 =
        .ok ((k * 10 ^ 9 : ℕ) : ℤ)) ∧
    (∀ k : ℕ, 0 < k → k ≤ 2 ^ 53 →
      (gasParse (.str (qtyStr (natNumeral k) (jstr "Gas")))).1 = .ok ((k : ℕ) : ℤ)) ∧
    (∀ k : ℕ, 0 < k → k * 10 ^ 21 ≤ 2 ^ 53 →
      (nearParse (.str (qtyStr (natNumeral k) (jstr "mNEAR")))).1 =
        .ok ((k * 10 ^ 21 : ℕ) : ℤ)) ∧
    (∀ k : ℕ, 0 < k → k * 10 ^ 21 ≤ 2 ^ 53 →
      (nearParse (.str (qtyStr (natNumeral k) (jstr "milliNEAR")))).1 =
        .ok ((k * 10 ^ 21 : ℕ) : ℤ)) ∧
    (∀ k : ℕ, 0 < k → k * 10 ^ 18 ≤ 2 ^ 53 →
      (nearParse (.str (qtyStr (natNumeral k) (jstr "μNEAR")))).1 =
        .ok ((k * 10 ^ 18 : ℕ) : ℤ)) ∧
    (∀ k : ℕ, 0 < k → k * 10 ^ 18 ≤ 2 ^ 53 →
      (nearParse (.str (qtyStr (natNumeral k) (jstr "microNEAR")))).1 =
        .ok ((k * 10 ^ 18 : ℕ) : ℤ)) ∧
    (∀ k : ℕ, 0 < k → k ≤ 2 ^ 53 →
      (nearParse (.str (qtyStr (natNumeral k) (jstr "yoctoNEAR")))).1 =
        .ok ((k : ℕ) : ℤ)) ∧
    (∀ k : ℕ, 0 < k → k ≤ 2 ^ 53 →
      (nearParse (.str (qtyStr (natNumeral k) (jstr "yocto")))).1 =
        .ok ((k : ℕ) : ℤ)) := by
  refine ⟨?_, ?_, ?_, ?_, ?_, ?_, ?_, ?_, ?_, ?_,
    ?_, ?_, ?_, ?_, ?_, ?_, ?_, ?_, ?_⟩
  · rw [gasParse_render n hn (jstr "TGas") (by decide) (by decide), if_pos (by decide)]
  · rw [gasParse_render n hn (jstr "GGas") (by decide) (by decide),
      if_neg (by decide), if_pos (by decide)]
  · rw [gasParse_render n hn (jstr "Gas") (by decide) (by decide),
      if_neg (by decide), if_neg (by decide), if_pos (by decide)]
  · rw [nearParse_render n hn (jstr "NEAR") (by decide) (by decide), if_pos (by decide)]
  · rw [nearParse_render n hn (jstr "mNEAR") (by decide) (by decide),
      if_neg (by decide), if_pos (by decide)]
  · rw [nearParse_render n hn (jstr "milliNEAR") (by decide) (by decide),
      if_neg (by decide), if_pos (by decide)]
  · rw [nearParse_render n hn (jstr "μNEAR") (by decide) (by decide),
      if_neg (by decide), if_neg (by decide), if_pos (by decide)]
  · rw [nearParse_render n hn (jstr "microNEAR") (by decide) (by decide),
      if_neg (by decide), if_neg (by decide), if_pos (by decide)]
  · rw [nearParse_render n hn (jstr "yoctoNEAR") (by decide) (by decide),
      if_neg (by decide), if_neg (by decide), if_neg (by decide), if_pos (by decide)]
  · rw [nearParse_render n hn (jstr "yocto") (by decide) (by decide),
      if_neg (by decide), if_neg (by decide), if_neg (by decide), if_pos (by decide)]
  · intro k hk hks
    rw [gasParse_render (natNumeral k) (natNumeral_wf k) (jstr "TGas") (by decide)
      (by decide), if_pos (by decide), natNumeral_amount]
    exact scale_exact GAS_UNITS_TGAS (10 ^ 12) (by decide) k hk (by norm_num) hks
  · intro k hk hks
    rw [gasParse_render (natNumeral k) (natNumeral_wf k) (jstr "GGas") (by decide)
      (by decide), if_neg (by decide), if_pos (by decide), natNumeral_amount]
    exact scale_exact GAS_UNITS_GGAS (10 ^ 9) (by decide) k hk (by norm_num) hks
  · intro k hk hks
    rw [gasParse_render (natNumeral k) (natNumeral_wf k) (jstr "Gas") (by decide)
      (by decide), if_neg (by decide), if_neg (by decide), if_pos (by decide),
      natNumeral_amount]
    exact base_exact k hk hks
  · intro k hk hks
    rw [nearParse_render (natNumeral k) (natNumeral_wf k) (jstr "mNEAR") (by decide)
      (by decide), if_neg (by decide), if_pos (by decide), natNumeral_amount]
    exact scale_exact NEAR_UNITS_MILLI_NEAR (10 ^ 21) (by decide) k hk (by norm_num) hks
  · intro k hk hks
    rw [nearParse_render (natNumeral k) (natNumeral_wf k) (jstr "milliNEAR") (by decide)
      (by decide), if_neg (by decide), if_pos (by decide), natNumeral_amount]
    exact scale_exact NEAR_UNITS_MILLI_NEAR (10 ^ 21) (by decide) k hk (by norm_num) hks
  · intro k hk hks
    rw [nearParse_render (natNumeral k) (natNumeral_wf k) (jstr "μNEAR") (by decide)
      (by decide), if_neg (by decide), if_neg (by decide), if_pos (by decide),
      natNumeral_amount]
    exact scale_exact NEAR_UNITS_MICRO_NEAR (10 ^ 18) (by decide) k hk (by norm_num) hks
  · intro k hk hks
    rw [nearParse_render (natNumeral k) (natNumeral_wf k) (jstr "microNEAR") (by decide)
      (by decide), if_neg (by decide), if_neg (by decide), if_pos (by decide),
      natNumeral_amount]
    exact scale_exact NEAR_UNITS_MICRO_NEAR (10 ^ 18) (by decide) k hk (by norm_num) hks
  · intro k hk hks
    rw [nearParse_render (natNumeral k) (natNumeral_wf k) (jstr "yoctoNEAR") (by decide)
      (by decide), if_neg (by decide), if_neg (by decide), if_neg (by decide),
      if_pos (by decide), natNumeral_amount]
    exact base_exact k hk hks
  · intro k hk hks
    rw [nearParse_render (natNumeral k) (natNumeral_wf k) (jstr "yocto") (by decide)
      (by decide), if_neg (by decide), if_neg (by decide), if_neg (by decide),
      if_pos (by decide), natNumeral_amount]
    exact base_exact k hk hks

/-- Claim C1 (counterexample): `"1 NEAR"` parses to 999999999999999983222784,
not to the exact integer product 1 · 10²⁴ the claim asserts, because the
scale constant `BigInt(10 ** 24)` is the binary64 approximation of 10²⁴. -/
theorem claim1_counterexample :
    (nearParse (.str (jstr "1 NEAR"))).1 = .ok 999999999999999983222784 ∧
    (999999999999999983222784 : ℤ) ≠ 1 * 10 ^ 24 :=
  ⟨by decide, by decide⟩

theorem claim1_witness :
    (gasParse (.str (qtyStr (natNumeral 25) (jstr "TGas")))).1 =
      .ok ((25 * 10 ^ 12 : ℕ) : ℤ) :=
  (claim1_amended (natNumeral 25) (by rw [Numeral.WF]; decide)).2.2.2.2.2.2.2.2.2.2.1
    25 (by decide) (by norm_num)

end NearValidation
